import Mathlib

/-! The 24-to-18 bit sample compressor of `compressor.cpp`.

A shallow embedding of `compressBuffer` / `expandBuffer` and of the helpers they
use, followed by the properties proved about them.

* a byte (`uint8_t`) is a `Fin 256`;
* the DMA buffer `uint8_t (&)[DMA_SIZE]` is a list of exactly `DMA_SIZE` bytes,
  read and written by byte offset;
* the two unit views of `union CompressionBuffer` are address computations:
  `asCompressed[unit].asBytes[j]` is offset `9 * unit + j`,
  `asExpanded[unit].asBytes[j]` is offset `12 * unit + j`;
* every assignment of the two loop bodies is one buffer update, executed in
  source order on the one shared buffer.
-/

namespace Compressor

/-! ## Constants (`compressor.h`, `compressor.cpp`) -/

/-- Size of the DMA buffer in bytes: `#define DMA_SIZE (512*3)`. -/
def DMA_SIZE : Nat := 512 * 3

/-- Size of a compressed unit: `#define COMPRESSED_UNIT_SIZE 9`. -/
def COMPRESSED_UNIT_SIZE : Nat := 9

/-- Size of an expanded unit: `#define EXPANDED_UNIT_SIZE 12`. -/
def EXPANDED_UNIT_SIZE : Nat := 12

/-- Size of a sample, `sizeof(sound24_t)`: a struct of three `uint8_t`. -/
def SOUND24_SIZE : Nat := 3

/-- Number of units in the buffer, `DMA_SIZE/EXPANDED_UNIT_SIZE`. -/
def UNIT_COUNT : Nat := DMA_SIZE / EXPANDED_UNIT_SIZE

/-! ## Bytes and the 2-bit fields of `Unit::asBitFields` -/

/-- A `uint8_t`. -/
abbrev Byte := Fin 256

/-- The four 2-bit fields of one byte of `asBitFields`; the name shows with `ll`
where the two bits sit. The source orders the bit-field declaration so that
`lloooooo` are the most significant bits and `ooooooll` the least significant
ones of the byte. -/
inductive BitField where
  | lloooooo
  | oolloooo
  | oooolloo
  | ooooooll
  deriving DecidableEq, Repr

/-- Bit offset of the field inside its byte. -/
def BitField.shift : BitField → Nat
  | .lloooooo => 6
  | .oolloooo => 4
  | .oooolloo => 2
  | .ooooooll => 0

/-- Reading a 2-bit field: `(x >> shift) & 3`. -/
def getField (f : BitField) (x : Byte) : Byte :=
  ⟨(x.val / 2 ^ f.shift) % 4, Nat.lt_of_lt_of_le (Nat.mod_lt _ (by decide)) (by decide)⟩

/-- Writing a 2-bit field, `(x & ~(3 << shift)) | ((v & 3) << shift)`: the two bits
at `shift` are replaced by the low two bits of `v`, the other six bits of `x` stay. -/
def setField (f : BitField) (x : Byte) (v : Byte) : Byte :=
  ⟨((x.val / 2 ^ (f.shift + 2)) * 2 ^ (f.shift + 2) + (v.val % 4) * 2 ^ f.shift
      + x.val % 2 ^ f.shift) % 256, Nat.mod_lt _ (by decide)⟩

/-! ## The buffer and its two unit views -/

/-- The DMA buffer, `uint8_t (&dmaBuffer)[DMA_SIZE]`: exactly `DMA_SIZE` bytes. -/
structure Buffer where
  bytes : List Byte
  size_eq : bytes.length = DMA_SIZE
  deriving DecidableEq

/-- The byte at offset `a` of the buffer (`asDma[a]`). Every offset the two loops
compute lies below `DMA_SIZE`. -/
def Buffer.read (buffer : Buffer) (a : Nat) : Byte := buffer.bytes.getD a 0

/-- The buffer whose byte at offset `i` is `f i`, for `i = 0 .. DMA_SIZE - 1`. -/
def Buffer.ofFn (f : Nat → Byte) : Buffer :=
  ⟨(List.range DMA_SIZE).map f, by rw [List.length_map, List.length_range]⟩

/-- Offset of `buffer.asCompressed[unit].asBytes[j]`. -/
def asCompressed (unit j : Nat) : Nat := COMPRESSED_UNIT_SIZE * unit + j

/-- Offset of `buffer.asExpanded[unit].asBytes[j]`. -/
def asExpanded (unit j : Nat) : Nat := EXPANDED_UNIT_SIZE * unit + j

/-- Store of one byte at offset `dst`. -/
def store (dst : Nat) (v : Byte) (buffer : Buffer) : Buffer :=
  ⟨buffer.bytes.set dst v, by rw [List.length_set]; exact buffer.size_eq⟩

/-- The assignment `<dst>.asBitFields[..].df = <src>.asBitFields[..].sf`: read the
source field, then read-modify-write the destination byte. -/
def copyField (dst : Nat) (df : BitField) (src : Nat) (sf : BitField) (buffer : Buffer) :
    Buffer :=
  store dst (setField df (buffer.read dst) (getField sf (buffer.read src))) buffer

/-- The assignment `<dst>.asBytes[..] = <src>.asBytes[..]`. -/
def copyByte (dst src : Nat) (buffer : Buffer) : Buffer :=
  store dst (buffer.read src) buffer

/-- The function `decryptByte`: the `switch` over the 2-bit code. -/
def decryptByte (byte : Byte) : Byte :=
  match byte.val with
  | 0 => 0
  | 1 => 0x7F
  | 2 => 0x80
  | _ => 0xFF

/-- The assignment `<dst>.asBytes[..] = decryptByte(<src>.asBitFields[..].sf)`. -/
def storeDecrypted (dst src : Nat) (sf : BitField) (buffer : Buffer) : Buffer :=
  store dst (decryptByte (getField sf (buffer.read src))) buffer

/-! ## `compressBuffer` -/

/-- Body of the loop of `compressBuffer` for one value of `unit` (lines 104-134),
the statements in source order. -/
def compressBody (unit : Nat) (buffer : Buffer) : Buffer :=
  let c := asCompressed unit
  let e := asExpanded unit
  buffer
    |> copyField (c 0) .lloooooo (e 0) .lloooooo
    |> copyField (c 0) .oolloooo (e 1) .lloooooo
    |> copyField (c 0) .oooolloo (e 1) .oolloooo
    |> copyField (c 0) .ooooooll (e 1) .oooolloo
    |> copyField (c 1) .lloooooo (e 1) .ooooooll
    |> copyField (c 1) .oolloooo (e 2) .lloooooo
    |> copyField (c 1) .oooolloo (e 2) .oolloooo
    |> copyField (c 1) .ooooooll (e 2) .oooolloo
    |> copyField (c 2) .lloooooo (e 2) .ooooooll
    |> copyField (c 2) .oolloooo (e 3) .lloooooo
    |> copyField (c 2) .oooolloo (e 4) .lloooooo
    |> copyField (c 2) .ooooooll (e 4) .oolloooo
    |> copyField (c 3) .lloooooo (e 4) .oooolloo
    |> copyField (c 3) .oolloooo (e 4) .ooooooll
    |> copyField (c 3) .oooolloo (e 5) .lloooooo
    |> copyField (c 3) .ooooooll (e 5) .oolloooo
    |> copyField (c 4) .lloooooo (e 5) .oooolloo
    |> copyField (c 4) .oolloooo (e 5) .ooooooll
    |> copyField (c 4) .oooolloo (e 6) .lloooooo
    |> copyField (c 4) .ooooooll (e 7) .lloooooo
    |> copyField (c 5) .lloooooo (e 7) .oolloooo
    |> copyField (c 5) .oolloooo (e 7) .oooolloo
    |> copyField (c 5) .oooolloo (e 7) .ooooooll
    |> copyField (c 5) .ooooooll (e 8) .lloooooo
    |> copyField (c 6) .lloooooo (e 8) .oolloooo
    |> copyField (c 6) .oolloooo (e 8) .oooolloo
    |> copyField (c 6) .oooolloo (e 8) .ooooooll
    |> copyField (c 6) .ooooooll (e 9) .lloooooo
    |> copyByte (c 7) (e 10)
    |> copyByte (c 8) (e 11)

/-- The loop `for (int unit = 0; unit < DMA_SIZE/EXPANDED_UNIT_SIZE; unit++)` of
`compressBuffer`, stopped after its first `n` iterations. -/
def compressLoop (n : Nat) (buffer : Buffer) : Buffer :=
  (List.range n).foldl (fun buf unit => compressBody unit buf) buffer

/-- The function `compressBuffer`: the buffer it leaves and the `uint16_t` it
returns. -/
def compressBuffer (dmaBuffer : Buffer) : Buffer × Nat :=
  (compressLoop UNIT_COUNT dmaBuffer, ((3 * DMA_SIZE) / 4) % 2 ^ 16)

/-! ## `expandBuffer` -/

/-- Body of the loop of `expandBuffer` for one value of `unit` (lines 149-186), the
statements in source order. -/
def expandBody (unit : Nat) (buffer : Buffer) : Buffer :=
  let c := asCompressed unit
  let e := asExpanded unit
  buffer
    |> copyByte (e 11) (c 8)
    |> copyByte (e 10) (c 7)
    |> storeDecrypted (e 9) (c 6) .ooooooll
    |> copyField (e 8) .ooooooll (c 6) .oooolloo
    |> copyField (e 8) .oooolloo (c 6) .oolloooo
    |> copyField (e 8) .oolloooo (c 6) .lloooooo
    |> copyField (e 8) .lloooooo (c 5) .ooooooll
    |> copyField (e 7) .ooooooll (c 5) .oooolloo
    |> copyField (e 7) .oooolloo (c 5) .oolloooo
    |> copyField (e 7) .oolloooo (c 5) .lloooooo
    |> copyField (e 7) .lloooooo (c 4) .ooooooll
    |> storeDecrypted (e 6) (c 4) .oooolloo
    |> copyField (e 5) .ooooooll (c 4) .oolloooo
    |> copyField (e 5) .oooolloo (c 4) .lloooooo
    |> copyField (e 5) .oolloooo (c 3) .ooooooll
    |> copyField (e 5) .lloooooo (c 3) .oooolloo
    |> copyField (e 4) .ooooooll (c 3) .oolloooo
    |> copyField (e 4) .oooolloo (c 3) .lloooooo
    |> copyField (e 4) .oolloooo (c 2) .ooooooll
    |> copyField (e 4) .lloooooo (c 2) .oooolloo
    |> storeDecrypted (e 3) (c 2) .oolloooo
    |> copyField (e 2) .ooooooll (c 2) .lloooooo
    |> copyField (e 2) .oooolloo (c 1) .ooooooll
    |> copyField (e 2) .oolloooo (c 1) .oooolloo
    |> copyField (e 2) .lloooooo (c 1) .oolloooo
    |> copyField (e 1) .ooooooll (c 1) .lloooooo
    |> copyField (e 1) .oooolloo (c 0) .ooooooll
    |> copyField (e 1) .oolloooo (c 0) .oooolloo
    |> copyField (e 1) .lloooooo (c 0) .oolloooo
    |> storeDecrypted (e 0) (c 0) .lloooooo

/-- The loop `for (int unit = (DMA_SIZE/EXPANDED_UNIT_SIZE)-1; unit > -1; unit--)`
of `expandBuffer`, started with `unit = n - 1`: the units `n-1, n-2, .., 0` are
expanded in this order. -/
def expandLoop (n : Nat) (buffer : Buffer) : Buffer :=
  (List.range n).reverse.foldl (fun buf unit => expandBody unit buf) buffer

/-- The function `expandBuffer`: the buffer it leaves and the `uint16_t` it returns. -/
def expandBuffer (dmaBuffer : Buffer) : Buffer × Nat :=
  (expandLoop UNIT_COUNT dmaBuffer, DMA_SIZE % 2 ^ 16)

/-! ## Test buffers -/

/-- The table `uint8_t compressableByte[]={0x0,0x7F,0x80,0xFF}` of `main`. -/
def compressableByte (i : Nat) : Byte :=
  match i with
  | 0 => 0x0
  | 1 => 0x7F
  | 2 => 0x80
  | _ => 0xFF

/-- The constant `num2BitValues = sizeof(compressableByte)` of `main`. -/
def num2BitValues : Nat := 4

/-- The buffer `originalBuffer` as the first loop of `main` fills it. -/
def originalBuffer : Buffer :=
  Buffer.ofFn fun i =>
    if i % 3 = 0 then compressableByte ((i / SOUND24_SIZE) % num2BitValues) else 0xFF

/-- The buffer in which every 3-byte sample is `(top, hi, lo)`. -/
def sampleBuffer (top hi lo : Byte) : Buffer :=
  Buffer.ofFn fun i => if i % 3 = 0 then top else if i % 3 = 1 then hi else lo

/-! ## Out-of-place reference

The same statements, but reading the unit from one buffer (`source`) and writing
it into another one (`target`), so that no write can disturb a later read. -/

/-- Field assignment with the source field taken from `source`. -/
def copyFieldInto (dst : Nat) (df : BitField) (src : Nat) (sf : BitField) (source : Buffer)
    (target : Buffer) : Buffer :=
  store dst (setField df (target.read dst) (getField sf (source.read src))) target

/-- Byte assignment with the source byte taken from `source`. -/
def copyByteInto (dst src : Nat) (source : Buffer) (target : Buffer) : Buffer :=
  store dst (source.read src) target

/-- Store of a decrypted code with the code taken from `source`. -/
def storeDecryptedInto (dst src : Nat) (sf : BitField) (source : Buffer) (target : Buffer) :
    Buffer :=
  store dst (decryptByte (getField sf (source.read src))) target

/-- Packing of unit `unit` of `source` into the compressed unit `unit` of `target`. -/
def compressBodyInto (unit : Nat) (source : Buffer) (target : Buffer) : Buffer :=
  let c := asCompressed unit
  let e := asExpanded unit
  target
    |> copyFieldInto (c 0) .lloooooo (e 0) .lloooooo source
    |> copyFieldInto (c 0) .oolloooo (e 1) .lloooooo source
    |> copyFieldInto (c 0) .oooolloo (e 1) .oolloooo source
    |> copyFieldInto (c 0) .ooooooll (e 1) .oooolloo source
    |> copyFieldInto (c 1) .lloooooo (e 1) .ooooooll source
    |> copyFieldInto (c 1) .oolloooo (e 2) .lloooooo source
    |> copyFieldInto (c 1) .oooolloo (e 2) .oolloooo source
    |> copyFieldInto (c 1) .ooooooll (e 2) .oooolloo source
    |> copyFieldInto (c 2) .lloooooo (e 2) .ooooooll source
    |> copyFieldInto (c 2) .oolloooo (e 3) .lloooooo source
    |> copyFieldInto (c 2) .oooolloo (e 4) .lloooooo source
    |> copyFieldInto (c 2) .ooooooll (e 4) .oolloooo source
    |> copyFieldInto (c 3) .lloooooo (e 4) .oooolloo source
    |> copyFieldInto (c 3) .oolloooo (e 4) .ooooooll source
    |> copyFieldInto (c 3) .oooolloo (e 5) .lloooooo source
    |> copyFieldInto (c 3) .ooooooll (e 5) .oolloooo source
    |> copyFieldInto (c 4) .lloooooo (e 5) .oooolloo source
    |> copyFieldInto (c 4) .oolloooo (e 5) .ooooooll source
    |> copyFieldInto (c 4) .oooolloo (e 6) .lloooooo source
    |> copyFieldInto (c 4) .ooooooll (e 7) .lloooooo source
    |> copyFieldInto (c 5) .lloooooo (e 7) .oolloooo source
    |> copyFieldInto (c 5) .oolloooo (e 7) .oooolloo source
    |> copyFieldInto (c 5) .oooolloo (e 7) .ooooooll source
    |> copyFieldInto (c 5) .ooooooll (e 8) .lloooooo source
    |> copyFieldInto (c 6) .lloooooo (e 8) .oolloooo source
    |> copyFieldInto (c 6) .oolloooo (e 8) .oooolloo source
    |> copyFieldInto (c 6) .oooolloo (e 8) .ooooooll source
    |> copyFieldInto (c 6) .ooooooll (e 9) .lloooooo source
    |> copyByteInto (c 7) (e 10) source
    |> copyByteInto (c 8) (e 11) source

/-- Out-of-place compression: every unit of `source` is packed into `target`, the
compressed unit `k` at offset `9 * k`. -/
def compressInto (source : Buffer) (target : Buffer) : Buffer :=
  (List.range UNIT_COUNT).foldl (fun buf unit => compressBodyInto unit source buf) target

/-- Unpacking of the compressed unit `unit` of `source` into the expanded unit
`unit` of `target`. -/
def expandBodyInto (unit : Nat) (source : Buffer) (target : Buffer) : Buffer :=
  let c := asCompressed unit
  let e := asExpanded unit
  target
    |> copyByteInto (e 11) (c 8) source
    |> copyByteInto (e 10) (c 7) source
    |> storeDecryptedInto (e 9) (c 6) .ooooooll source
    |> copyFieldInto (e 8) .ooooooll (c 6) .oooolloo source
    |> copyFieldInto (e 8) .oooolloo (c 6) .oolloooo source
    |> copyFieldInto (e 8) .oolloooo (c 6) .lloooooo source
    |> copyFieldInto (e 8) .lloooooo (c 5) .ooooooll source
    |> copyFieldInto (e 7) .ooooooll (c 5) .oooolloo source
    |> copyFieldInto (e 7) .oooolloo (c 5) .oolloooo source
    |> copyFieldInto (e 7) .oolloooo (c 5) .lloooooo source
    |> copyFieldInto (e 7) .lloooooo (c 4) .ooooooll source
    |> storeDecryptedInto (e 6) (c 4) .oooolloo source
    |> copyFieldInto (e 5) .ooooooll (c 4) .oolloooo source
    |> copyFieldInto (e 5) .oooolloo (c 4) .lloooooo source
    |> copyFieldInto (e 5) .oolloooo (c 3) .ooooooll source
    |> copyFieldInto (e 5) .lloooooo (c 3) .oooolloo source
    |> copyFieldInto (e 4) .ooooooll (c 3) .oolloooo source
    |> copyFieldInto (e 4) .oooolloo (c 3) .lloooooo source
    |> copyFieldInto (e 4) .oolloooo (c 2) .ooooooll source
    |> copyFieldInto (e 4) .lloooooo (c 2) .oooolloo source
    |> storeDecryptedInto (e 3) (c 2) .oolloooo source
    |> copyFieldInto (e 2) .ooooooll (c 2) .lloooooo source
    |> copyFieldInto (e 2) .oooolloo (c 1) .ooooooll source
    |> copyFieldInto (e 2) .oolloooo (c 1) .oooolloo source
    |> copyFieldInto (e 2) .lloooooo (c 1) .oolloooo source
    |> copyFieldInto (e 1) .ooooooll (c 1) .lloooooo source
    |> copyFieldInto (e 1) .oooolloo (c 0) .ooooooll source
    |> copyFieldInto (e 1) .oolloooo (c 0) .oooolloo source
    |> copyFieldInto (e 1) .lloooooo (c 0) .oolloooo source
    |> storeDecryptedInto (e 0) (c 0) .lloooooo source

/-- Out-of-place expansion: every compressed unit of `source` is unpacked into
`target`, the expanded unit `k` at offset `12 * k`. -/
def expandInto (source : Buffer) (target : Buffer) : Buffer :=
  (List.range UNIT_COUNT).reverse.foldl (fun buf unit => expandBodyInto unit source buf) target

/-! ## Vocabulary of the specification -/

/-- The four sentinel values a sample's top byte may take. -/
def isSentinel (x : Byte) : Prop := x = 0x00 ∨ x = 0x7F ∨ x = 0x80 ∨ x = 0xFF

instance (x : Byte) : Decidable (isSentinel x) := by
  unfold isSentinel; infer_instance

/-- The map `SentinelCodec.encode` as the specification words it: `0x00 → 0b00`,
`0x7F → 0b01`, `0x80 → 0b10`, anything else `→ 0b11`. -/
def SentinelCodec.encode (x : Byte) : Nat :=
  if x = 0x00 then 0 else if x = 0x7F then 1 else if x = 0x80 then 2 else 3

/-- The map `SentinelCodec.decode` as the specification words it: `0b00 → 0x00`,
`0b01 → 0x7F`, `0b10 → 0x80`, `0b11 → 0xFF`. -/
def SentinelCodec.decode (code : Nat) : Byte :=
  match code with
  | 0 => 0x00
  | 1 => 0x7F
  | 2 => 0x80
  | _ => 0xFF

/-- The 72-bit value of the nine bytes at offsets `base .. base + 8`, the first byte
most significant. -/
def stream72 (buffer : Buffer) (base : Nat) : Nat :=
  (buffer.read base).val * 2 ^ 64 + (buffer.read (base + 1)).val * 2 ^ 56
    + (buffer.read (base + 2)).val * 2 ^ 48 + (buffer.read (base + 3)).val * 2 ^ 40
    + (buffer.read (base + 4)).val * 2 ^ 32 + (buffer.read (base + 5)).val * 2 ^ 24
    + (buffer.read (base + 6)).val * 2 ^ 16 + (buffer.read (base + 7)).val * 2 ^ 8
    + (buffer.read (base + 8)).val

/-- The `width` bits of a 72-bit stream that start at bit position `pos`, bit 0
being the most significant bit of the stream. -/
def streamBits (stream pos width : Nat) : Nat :=
  (stream / 2 ^ (72 - pos - width)) % 2 ^ width

/-- An 18-bit field: a 2-bit code followed by the 16-bit payload `hi lo`. -/
def field18 (code : Nat) (hi lo : Byte) : Nat :=
  code * 2 ^ 16 + hi.val * 2 ^ 8 + lo.val

/-- MSB-first concatenation of four 18-bit fields, without padding. -/
def concat72 (f0 f1 f2 f3 : Nat) : Nat :=
  f0 * 2 ^ 54 + f1 * 2 ^ 36 + f2 * 2 ^ 18 + f3

/-- The 72-bit concatenation `code_0 payload_0 code_1 payload_1 code_2 payload_2
code_3 payload_3` of the expanded unit at offsets `base .. base + 11`, where
`code` gives the 2-bit code of a top byte. -/
def packedStream (code : Byte → Nat) (buffer : Buffer) (base : Nat) : Nat :=
  concat72
    (field18 (code (buffer.read base)) (buffer.read (base + 1)) (buffer.read (base + 2)))
    (field18 (code (buffer.read (base + 3))) (buffer.read (base + 4)) (buffer.read (base + 5)))
    (field18 (code (buffer.read (base + 6))) (buffer.read (base + 7)) (buffer.read (base + 8)))
    (field18 (code (buffer.read (base + 9))) (buffer.read (base + 10)) (buffer.read (base + 11)))

/-- The two most significant bits of a byte, `x >> 6`. -/
def topTwoBits (x : Byte) : Nat := x.val / 64

/-- The 2-bit code stored for sample `s` in a compressed buffer: the two bits at
position `18 * (s % 4)` of the 72-bit stream of the compressed unit `s / 4`. -/
def storedCode (buffer : Buffer) (s : Nat) : Nat :=
  streamBits (stream72 buffer (9 * (s / 4))) (18 * (s % 4)) 2

/-! ## The loop bodies as statement lists

The same assignments once more, as data: each statement names the byte it writes
and the byte it reads its source from, so that the order of reads and writes in
one iteration can be stated. -/

/-- One assignment of a loop body. -/
inductive Stmt where
  | field (dst : Nat) (df : BitField) (src : Nat) (sf : BitField)
  | byte (dst src : Nat)
  | decrypt (dst src : Nat) (sf : BitField)
  deriving DecidableEq, Repr

/-- Offset of the byte the statement writes. -/
def Stmt.dst : Stmt → Nat
  | .field dst _ _ _ => dst
  | .byte dst _ => dst
  | .decrypt dst _ _ => dst

/-- Offset of the byte the statement reads its right-hand side from. -/
def Stmt.src : Stmt → Nat
  | .field _ _ src _ => src
  | .byte _ src => src
  | .decrypt _ src _ => src

/-- Execution of one statement. -/
def Stmt.run : Stmt → Buffer → Buffer
  | .field dst df src sf => copyField dst df src sf
  | .byte dst src => copyByte dst src
  | .decrypt dst src sf => storeDecrypted dst src sf

/-- Execution of a statement list, first statement first. -/
def runStmts (stmts : List Stmt) (buffer : Buffer) : Buffer :=
  stmts.foldl (fun buf s => s.run buf) buffer

/-- In a statement list, no statement reads a byte that an earlier statement of the
list has written: every source byte is read before any write to it. -/
def ReadsBeforeWrites (stmts : List Stmt) : Prop :=
  stmts.Pairwise fun earlier later => later.src ≠ earlier.dst

/-- The statements of the loop body of `compressBuffer` (lines 104-134) for one value
of `unit`, in source order. -/
def compressStmts (unit : Nat) : List Stmt :=
  let c := asCompressed unit
  let e := asExpanded unit
  [ .field (c 0) .lloooooo (e 0) .lloooooo,
    .field (c 0) .oolloooo (e 1) .lloooooo,
    .field (c 0) .oooolloo (e 1) .oolloooo,
    .field (c 0) .ooooooll (e 1) .oooolloo,
    .field (c 1) .lloooooo (e 1) .ooooooll,
    .field (c 1) .oolloooo (e 2) .lloooooo,
    .field (c 1) .oooolloo (e 2) .oolloooo,
    .field (c 1) .ooooooll (e 2) .oooolloo,
    .field (c 2) .lloooooo (e 2) .ooooooll,
    .field (c 2) .oolloooo (e 3) .lloooooo,
    .field (c 2) .oooolloo (e 4) .lloooooo,
    .field (c 2) .ooooooll (e 4) .oolloooo,
    .field (c 3) .lloooooo (e 4) .oooolloo,
    .field (c 3) .oolloooo (e 4) .ooooooll,
    .field (c 3) .oooolloo (e 5) .lloooooo,
    .field (c 3) .ooooooll (e 5) .oolloooo,
    .field (c 4) .lloooooo (e 5) .oooolloo,
    .field (c 4) .oolloooo (e 5) .ooooooll,
    .field (c 4) .oooolloo (e 6) .lloooooo,
    .field (c 4) .ooooooll (e 7) .lloooooo,
    .field (c 5) .lloooooo (e 7) .oolloooo,
    .field (c 5) .oolloooo (e 7) .oooolloo,
    .field (c 5) .oooolloo (e 7) .ooooooll,
    .field (c 5) .ooooooll (e 8) .lloooooo,
    .field (c 6) .lloooooo (e 8) .oolloooo,
    .field (c 6) .oolloooo (e 8) .oooolloo,
    .field (c 6) .oooolloo (e 8) .ooooooll,
    .field (c 6) .ooooooll (e 9) .lloooooo,
    .byte (c 7) (e 10),
    .byte (c 8) (e 11) ]

/-- The statements of the loop body of `expandBuffer` (lines 149-186) for one value of
`unit`, in source order. -/
def expandStmts (unit : Nat) : List Stmt :=
  let c := asCompressed unit
  let e := asExpanded unit
  [ .byte (e 11) (c 8),
    .byte (e 10) (c 7),
    .decrypt (e 9) (c 6) .ooooooll,
    .field (e 8) .ooooooll (c 6) .oooolloo,
    .field (e 8) .oooolloo (c 6) .oolloooo,
    .field (e 8) .oolloooo (c 6) .lloooooo,
    .field (e 8) .lloooooo (c 5) .ooooooll,
    .field (e 7) .ooooooll (c 5) .oooolloo,
    .field (e 7) .oooolloo (c 5) .oolloooo,
    .field (e 7) .oolloooo (c 5) .lloooooo,
    .field (e 7) .lloooooo (c 4) .ooooooll,
    .decrypt (e 6) (c 4) .oooolloo,
    .field (e 5) .ooooooll (c 4) .oolloooo,
    .field (e 5) .oooolloo (c 4) .lloooooo,
    .field (e 5) .oolloooo (c 3) .ooooooll,
    .field (e 5) .lloooooo (c 3) .oooolloo,
    .field (e 4) .ooooooll (c 3) .oolloooo,
    .field (e 4) .oooolloo (c 3) .lloooooo,
    .field (e 4) .oolloooo (c 2) .ooooooll,
    .field (e 4) .lloooooo (c 2) .oooolloo,
    .decrypt (e 3) (c 2) .oolloooo,
    .field (e 2) .ooooooll (c 2) .lloooooo,
    .field (e 2) .oooolloo (c 1) .ooooooll,
    .field (e 2) .oolloooo (c 1) .oooolloo,
    .field (e 2) .lloooooo (c 1) .oolloooo,
    .field (e 1) .ooooooll (c 1) .lloooooo,
    .field (e 1) .oooolloo (c 0) .ooooooll,
    .field (e 1) .oolloooo (c 0) .oooolloo,
    .field (e 1) .lloooooo (c 0) .oolloooo,
    .decrypt (e 0) (c 0) .lloooooo ]

/-- The buffer at the moment the loop of `expandBuffer` starts on unit `k`: the units
`UNIT_COUNT - 1, .., k + 1` have been expanded, in this order. -/
def expandPrefix (k : Nat) (buffer : Buffer) : Buffer :=
  (List.range' (k + 1) (UNIT_COUNT - (k + 1))).reverse.foldl
    (fun buf unit => expandBody unit buf) buffer

/-! ## Closed forms of the two loop bodies -/

/-- Byte assembled from four 2-bit fields, most significant field first. -/
def pack4 (f3 f2 f1 f0 : Byte) : Byte :=
  ⟨(f3.val % 4) * 64 + (f2.val % 4) * 16 + (f1.val % 4) * 4 + f0.val % 4, by omega⟩

/-- Closed form of the nine bytes that the body of `compressBuffer` leaves in the
compressed unit, as a function of the twelve bytes `u 0 .. u 11` of the expanded unit. -/
def packedByte (u : Nat → Byte) : Nat → Byte
  | 0 => pack4 (getField .lloooooo (u 0)) (getField .lloooooo (u 1))
      (getField .oolloooo (u 1)) (getField .oooolloo (u 1))
  | 1 => pack4 (getField .ooooooll (u 1)) (getField .lloooooo (u 2))
      (getField .oolloooo (u 2)) (getField .oooolloo (u 2))
  | 2 => pack4 (getField .ooooooll (u 2)) (getField .lloooooo (u 3))
      (getField .lloooooo (u 4)) (getField .oolloooo (u 4))
  | 3 => pack4 (getField .oooolloo (u 4)) (getField .ooooooll (u 4))
      (getField .lloooooo (u 5)) (getField .oolloooo (u 5))
  | 4 => pack4 (getField .oooolloo (u 5)) (getField .ooooooll (u 5))
      (getField .lloooooo (u 6)) (getField .lloooooo (u 7))
  | 5 => pack4 (getField .oolloooo (u 7)) (getField .oooolloo (u 7))
      (getField .ooooooll (u 7)) (getField .lloooooo (u 8))
  | 6 => pack4 (getField .oolloooo (u 8)) (getField .oooolloo (u 8))
      (getField .ooooooll (u 8)) (getField .lloooooo (u 9))
  | 7 => u 10
  | _ => u 11

/-- Closed form of the twelve bytes that the body of `expandBuffer` leaves in the
expanded unit, as a function of the nine bytes `u 0 .. u 8` of the compressed unit. -/
def unpackedByte (u : Nat → Byte) : Nat → Byte
  | 0 => decryptByte (getField .lloooooo (u 0))
  | 1 => pack4 (getField .oolloooo (u 0)) (getField .oooolloo (u 0))
      (getField .ooooooll (u 0)) (getField .lloooooo (u 1))
  | 2 => pack4 (getField .oolloooo (u 1)) (getField .oooolloo (u 1))
      (getField .ooooooll (u 1)) (getField .lloooooo (u 2))
  | 3 => decryptByte (getField .oolloooo (u 2))
  | 4 => pack4 (getField .oooolloo (u 2)) (getField .ooooooll (u 2))
      (getField .lloooooo (u 3)) (getField .oolloooo (u 3))
  | 5 => pack4 (getField .oooolloo (u 3)) (getField .ooooooll (u 3))
      (getField .lloooooo (u 4)) (getField .oolloooo (u 4))
  | 6 => decryptByte (getField .oooolloo (u 4))
  | 7 => pack4 (getField .ooooooll (u 4)) (getField .lloooooo (u 5))
      (getField .oolloooo (u 5)) (getField .oooolloo (u 5))
  | 8 => pack4 (getField .ooooooll (u 5)) (getField .lloooooo (u 6))
      (getField .oolloooo (u 6)) (getField .oooolloo (u 6))
  | 9 => decryptByte (getField .ooooooll (u 6))
  | 10 => u 7
  | _ => u 8

/-! ## Lemmas on bytes and fields -/

theorem pack4_val (a b c d : Byte) :
    (pack4 a b c d).val = (a.val % 4) * 64 + (b.val % 4) * 16 + (c.val % 4) * 4 + d.val % 4 := rfl

theorem getField_val (f : BitField) (x : Byte) : (getField f x).val = (x.val / 2 ^ f.shift) % 4 := rfl

theorem getField_lt (f : BitField) (x : Byte) : (getField f x).val < 4 := by
  rw [getField_val]; exact Nat.mod_lt _ (by decide)

theorem byte_eta (x : Byte) :
    x = pack4 (getField .lloooooo x) (getField .oolloooo x) (getField .oooolloo x)
      (getField .ooooooll x) := by
  have hx := x.isLt
  apply Fin.ext
  simp only [pack4_val, getField_val, BitField.shift]
  omega

theorem setField_pack4 (f : BitField) (a b c d v : Byte) :
    setField f (pack4 a b c d) v = match f with
      | .lloooooo => pack4 v b c d
      | .oolloooo => pack4 a v c d
      | .oooolloo => pack4 a b v d
      | .ooooooll => pack4 a b c v := by
  apply Fin.ext
  cases f <;> simp [setField, pack4_val, BitField.shift] <;> omega

theorem getField_pack4 (f : BitField) (a b c d : Byte) :
    (getField f (pack4 a b c d)).val = match f with
      | .lloooooo => a.val % 4
      | .oolloooo => b.val % 4
      | .oooolloo => c.val % 4
      | .ooooooll => d.val % 4 := by
  cases f <;> simp [getField_val, pack4_val, BitField.shift] <;> omega

theorem setField_chain_down (x a b c d : Byte) :
    setField .ooooooll (setField .oooolloo (setField .oolloooo (setField .lloooooo x a) b) c) d
      = pack4 a b c d := by
  rw [byte_eta x]
  simp only [setField_pack4]

theorem setField_chain_up (x a b c d : Byte) :
    setField .lloooooo (setField .oolloooo (setField .oooolloo (setField .ooooooll x a) b) c) d
      = pack4 d c b a := by
  rw [byte_eta x]
  simp only [setField_pack4]

/-! ## Reading and writing the buffer -/

theorem Buffer.ext_read (b1 b2 : Buffer) (h : ∀ a, a < DMA_SIZE → b1.read a = b2.read a) :
    b1 = b2 := by
  obtain ⟨l1, h1⟩ := b1
  obtain ⟨l2, h2⟩ := b2
  have hl : l1 = l2 := by
    apply List.ext_getElem (by rw [h1, h2])
    intro n hn1 hn2
    have := h n (by rw [← h1]; exact hn1)
    simpa [Buffer.read, List.getD_eq_getElem?_getD, List.getElem?_eq_getElem hn1,
      List.getElem?_eq_getElem hn2] using this
  subst hl
  rfl

theorem Buffer.read_ofFn (f : Nat → Byte) (a : Nat) (ha : a < DMA_SIZE) :
    (Buffer.ofFn f).read a = f a := by
  simp [Buffer.read, Buffer.ofFn, List.getD_eq_getElem?_getD, ha]

theorem read_store_eq (d : Nat) (v : Byte) (b : Buffer) (a : Nat) (h : a = d) (hd : d < 1536) :
    (store d v b).read a = v := by
  have hlen : d < b.bytes.length := by rw [b.size_eq]; exact hd
  subst h
  simp [Buffer.read, store, List.getD_eq_getElem?_getD, hlen]

theorem read_store_ne (d : Nat) (v : Byte) (b : Buffer) (a : Nat) (h : a ≠ d) :
    (store d v b).read a = b.read a := by
  simp [Buffer.read, store, List.getD_eq_getElem?_getD, List.getElem?_set_ne (Ne.symm h)]

theorem copyField_eq (d s : Nat) (df sf : BitField) (b : Buffer) (a : Nat) (h : a = d)
    (hd : d < 1536) :
    (copyField d df s sf b).read a = setField df (b.read d) (getField sf (b.read s)) :=
  read_store_eq d _ b a h hd

theorem copyField_ne (d s : Nat) (df sf : BitField) (b : Buffer) (a : Nat) (h : a ≠ d) :
    (copyField d df s sf b).read a = b.read a :=
  read_store_ne d _ b a h

theorem copyByte_eq (d s : Nat) (b : Buffer) (a : Nat) (h : a = d) (hd : d < 1536) :
    (copyByte d s b).read a = b.read s :=
  read_store_eq d _ b a h hd

theorem copyByte_ne (d s : Nat) (b : Buffer) (a : Nat) (h : a ≠ d) :
    (copyByte d s b).read a = b.read a :=
  read_store_ne d _ b a h

theorem storeDecrypted_eq (d s : Nat) (sf : BitField) (b : Buffer) (a : Nat) (h : a = d)
    (hd : d < 1536) :
    (storeDecrypted d s sf b).read a = decryptByte (getField sf (b.read s)) :=
  read_store_eq d _ b a h hd

theorem storeDecrypted_ne (d s : Nat) (sf : BitField) (b : Buffer) (a : Nat) (h : a ≠ d) :
    (storeDecrypted d s sf b).read a = b.read a :=
  read_store_ne d _ b a h

/-! ## One iteration of each loop -/

theorem compressBody_frame (k : Nat) (b : Buffer) (a : Nat) (h : a < 9 * k ∨ 9 * k + 9 ≤ a) :
    (compressBody k b).read a = b.read a := by
  simp (disch := omega) only [compressBody, asCompressed, asExpanded, COMPRESSED_UNIT_SIZE,
    EXPANDED_UNIT_SIZE, copyField_ne, copyByte_ne]

set_option maxHeartbeats 4000000 in
theorem compressBody_unit (k : Nat) (b : Buffer) (j : Nat) (hk : k < 128) (hj : j < 9) :
    (compressBody k b).read (9 * k + j) = packedByte (fun t => b.read (12 * k + t)) j := by
  have hk' : k = 0 ∨ k = 1 ∨ k = 2 ∨ 3 ≤ k := by omega
  interval_cases j <;> rcases hk' with rfl | rfl | rfl | hk' <;>
    simp (disch := omega) only [compressBody, asCompressed, asExpanded, COMPRESSED_UNIT_SIZE,
      EXPANDED_UNIT_SIZE, copyField_ne, copyByte_ne, copyField_eq, copyByte_eq,
      setField_chain_down, packedByte]

theorem expandBody_frame (k : Nat) (b : Buffer) (a : Nat) (h : a < 12 * k ∨ 12 * k + 12 ≤ a) :
    (expandBody k b).read a = b.read a := by
  simp (disch := omega) only [expandBody, asCompressed, asExpanded, COMPRESSED_UNIT_SIZE,
    EXPANDED_UNIT_SIZE, copyField_ne, copyByte_ne, storeDecrypted_ne]

set_option maxHeartbeats 4000000 in
theorem expandBody_unit (k : Nat) (b : Buffer) (j : Nat) (hk : k < 128) (hj : j < 12) :
    (expandBody k b).read (12 * k + j) = unpackedByte (fun t => b.read (9 * k + t)) j := by
  have hk' : k = 0 ∨ k = 1 ∨ k = 2 ∨ 3 ≤ k := by omega
  interval_cases j <;> rcases hk' with rfl | rfl | rfl | hk' <;>
    simp (disch := omega) only [expandBody, asCompressed, asExpanded, COMPRESSED_UNIT_SIZE,
      EXPANDED_UNIT_SIZE, copyField_ne, copyByte_ne, copyField_eq, copyByte_eq,
      storeDecrypted_eq, storeDecrypted_ne, setField_chain_up, unpackedByte]

/-! ## The two loops -/

theorem packedByte_congr (u v : Nat → Byte) (j : Nat) (h : ∀ t, t < 12 → u t = v t) :
    packedByte u j = packedByte v j := by
  unfold packedByte
  split <;> simp only [h 0 (by decide), h 1 (by decide), h 2 (by decide), h 3 (by decide),
    h 4 (by decide), h 5 (by decide), h 6 (by decide), h 7 (by decide), h 8 (by decide),
    h 9 (by decide), h 10 (by decide), h 11 (by decide)]

theorem unpackedByte_congr (u v : Nat → Byte) (j : Nat) (h : ∀ t, t < 9 → u t = v t) :
    unpackedByte u j = unpackedByte v j := by
  unfold unpackedByte
  split <;> simp only [h 0 (by decide), h 1 (by decide), h 2 (by decide), h 3 (by decide),
    h 4 (by decide), h 5 (by decide), h 6 (by decide), h 7 (by decide), h 8 (by decide)]

theorem compressLoop_succ (n : Nat) (b : Buffer) :
    compressLoop (n + 1) b = compressBody n (compressLoop n b) := by
  simp [compressLoop, List.range_succ, List.foldl_append]

theorem expandLoop_succ (n : Nat) (b : Buffer) :
    expandLoop (n + 1) b = expandLoop n (expandBody n b) := by
  simp [expandLoop, List.range_succ, List.reverse_append]

/-- State of the buffer after the first `n` iterations of the loop of
`compressBuffer`: the compressed units `0 .. n-1` are in place, everything from
offset `9 * n` on is untouched. -/
theorem compressLoop_apply (n : Nat) (hn : n ≤ 128) (b : Buffer) (a : Nat) :
    (compressLoop n b).read a
      = if a < 9 * n then packedByte (fun t => b.read (12 * (a / 9) + t)) (a % 9)
        else b.read a := by
  induction n generalizing a with
  | zero => simp [compressLoop]
  | succ n ih =>
    have ih := ih (by omega)
    rw [compressLoop_succ]
    by_cases h1 : a < 9 * n
    · rw [compressBody_frame n _ a (Or.inl h1), ih, if_pos h1, if_pos (by omega)]
    · by_cases h2 : a < 9 * (n + 1)
      · obtain ⟨j, hj, rfl⟩ : ∃ j, j < 9 ∧ a = 9 * n + j := ⟨a - 9 * n, by omega, by omega⟩
        rw [compressBody_unit n _ j (by omega) hj, if_pos h2]
        have e1 : (9 * n + j) / 9 = n := by omega
        have e2 : (9 * n + j) % 9 = j := by omega
        rw [e1, e2]
        apply packedByte_congr
        intro t _
        show (compressLoop n b).read (12 * n + t) = b.read (12 * n + t)
        rw [ih, if_neg (by omega)]
      · rw [compressBody_frame n _ a (Or.inr (by omega)), ih, if_neg h1, if_neg h2]

/-- State of the buffer after the loop of `expandBuffer` has run over the units
`n-1, .., 0`: the expanded units `0 .. n-1` are in place, everything from offset
`12 * n` on is untouched. -/
theorem expandLoop_apply (n : Nat) (hn : n ≤ 128) (b : Buffer) (a : Nat) :
    (expandLoop n b).read a
      = if a < 12 * n then unpackedByte (fun t => b.read (9 * (a / 12) + t)) (a % 12)
        else b.read a := by
  induction n generalizing b a with
  | zero => simp [expandLoop]
  | succ n ih =>
    have ih := ih (by omega)
    rw [expandLoop_succ, ih]
    by_cases h1 : a < 12 * n
    · rw [if_pos h1, if_pos (by omega)]
      apply unpackedByte_congr
      intro t ht
      show (expandBody n b).read (9 * (a / 12) + t) = b.read (9 * (a / 12) + t)
      exact expandBody_frame n b _ (Or.inl (by omega))
    · rw [if_neg h1]
      by_cases h2 : a < 12 * (n + 1)
      · obtain ⟨j, hj, rfl⟩ : ∃ j, j < 12 ∧ a = 12 * n + j := ⟨a - 12 * n, by omega, by omega⟩
        rw [expandBody_unit n _ j (by omega) hj, if_pos h2]
        have e1 : (12 * n + j) / 12 = n := by omega
        have e2 : (12 * n + j) % 12 = j := by omega
        rw [e1, e2]
      · rw [expandBody_frame n _ a (Or.inr (by omega)), if_neg h2]

/-! ## The out-of-place reference -/

theorem copyFieldInto_eq (d s : Nat) (df sf : BitField) (src b : Buffer) (a : Nat) (h : a = d)
    (hd : d < 1536) :
    (copyFieldInto d df s sf src b).read a = setField df (b.read d) (getField sf (src.read s)) :=
  read_store_eq d _ b a h hd

theorem copyFieldInto_ne (d s : Nat) (df sf : BitField) (src b : Buffer) (a : Nat) (h : a ≠ d) :
    (copyFieldInto d df s sf src b).read a = b.read a :=
  read_store_ne d _ b a h

theorem copyByteInto_eq (d s : Nat) (src b : Buffer) (a : Nat) (h : a = d) (hd : d < 1536) :
    (copyByteInto d s src b).read a = src.read s :=
  read_store_eq d _ b a h hd

theorem copyByteInto_ne (d s : Nat) (src b : Buffer) (a : Nat) (h : a ≠ d) :
    (copyByteInto d s src b).read a = b.read a :=
  read_store_ne d _ b a h

theorem storeDecryptedInto_eq (d s : Nat) (sf : BitField) (src b : Buffer) (a : Nat)
    (h : a = d) (hd : d < 1536) :
    (storeDecryptedInto d s sf src b).read a = decryptByte (getField sf (src.read s)) :=
  read_store_eq d _ b a h hd

theorem storeDecryptedInto_ne (d s : Nat) (sf : BitField) (src b : Buffer) (a : Nat)
    (h : a ≠ d) : (storeDecryptedInto d s sf src b).read a = b.read a :=
  read_store_ne d _ b a h

theorem compressBodyInto_frame (k : Nat) (src b : Buffer) (a : Nat)
    (h : a < 9 * k ∨ 9 * k + 9 ≤ a) : (compressBodyInto k src b).read a = b.read a := by
  simp (disch := omega) only [compressBodyInto, asCompressed, asExpanded, COMPRESSED_UNIT_SIZE,
    EXPANDED_UNIT_SIZE, copyFieldInto_ne, copyByteInto_ne]

set_option maxHeartbeats 4000000 in
theorem compressBodyInto_unit (k : Nat) (src b : Buffer) (j : Nat) (hk : k < 128) (hj : j < 9) :
    (compressBodyInto k src b).read (9 * k + j)
      = packedByte (fun t => src.read (12 * k + t)) j := by
  interval_cases j <;>
    simp (disch := omega) only [compressBodyInto, asCompressed, asExpanded,
      COMPRESSED_UNIT_SIZE, EXPANDED_UNIT_SIZE, copyFieldInto_ne, copyByteInto_ne,
      copyFieldInto_eq, copyByteInto_eq, setField_chain_down, packedByte]

theorem expandBodyInto_frame (k : Nat) (src b : Buffer) (a : Nat)
    (h : a < 12 * k ∨ 12 * k + 12 ≤ a) : (expandBodyInto k src b).read a = b.read a := by
  simp (disch := omega) only [expandBodyInto, asCompressed, asExpanded, COMPRESSED_UNIT_SIZE,
    EXPANDED_UNIT_SIZE, copyFieldInto_ne, copyByteInto_ne, storeDecryptedInto_ne]

set_option maxHeartbeats 4000000 in
theorem expandBodyInto_unit (k : Nat) (src b : Buffer) (j : Nat) (hk : k < 128) (hj : j < 12) :
    (expandBodyInto k src b).read (12 * k + j)
      = unpackedByte (fun t => src.read (9 * k + t)) j := by
  interval_cases j <;>
    simp (disch := omega) only [expandBodyInto, asCompressed, asExpanded,
      COMPRESSED_UNIT_SIZE, EXPANDED_UNIT_SIZE, copyFieldInto_ne, copyByteInto_ne,
      copyFieldInto_eq, copyByteInto_eq, storeDecryptedInto_eq, storeDecryptedInto_ne,
      setField_chain_up, unpackedByte]

theorem compressInto_fold (n : Nat) (hn : n ≤ 128) (src b : Buffer) (a : Nat) :
    ((List.range n).foldl (fun buf unit => compressBodyInto unit src buf) b).read a
      = if a < 9 * n then packedByte (fun t => src.read (12 * (a / 9) + t)) (a % 9)
        else b.read a := by
  induction n generalizing a with
  | zero => simp
  | succ n ih =>
    have ih := ih (by omega)
    rw [List.range_succ, List.foldl_append]
    simp only [List.foldl_cons, List.foldl_nil]
    by_cases h1 : a < 9 * n
    · rw [compressBodyInto_frame n _ _ a (Or.inl h1), ih, if_pos h1, if_pos (by omega)]
    · by_cases h2 : a < 9 * (n + 1)
      · obtain ⟨j, hj, rfl⟩ : ∃ j, j < 9 ∧ a = 9 * n + j := ⟨a - 9 * n, by omega, by omega⟩
        rw [compressBodyInto_unit n _ _ j (by omega) hj, if_pos h2]
        have e1 : (9 * n + j) / 9 = n := by omega
        have e2 : (9 * n + j) % 9 = j := by omega
        rw [e1, e2]
      · rw [compressBodyInto_frame n _ _ a (Or.inr (by omega)), ih, if_neg h1, if_neg h2]

theorem expandInto_fold (n : Nat) (hn : n ≤ 128) (src b : Buffer) (a : Nat) :
    ((List.range n).reverse.foldl (fun buf unit => expandBodyInto unit src buf) b).read a
      = if a < 12 * n then unpackedByte (fun t => src.read (9 * (a / 12) + t)) (a % 12)
        else b.read a := by
  induction n generalizing b a with
  | zero => simp
  | succ n ih =>
    have ih := ih (by omega)
    rw [List.range_succ, List.reverse_append]
    simp only [List.reverse_cons, List.reverse_nil, List.nil_append, List.singleton_append,
      List.foldl_cons]
    rw [ih]
    by_cases h1 : a < 12 * n
    · rw [if_pos h1, if_pos (by omega)]
    · rw [if_neg h1]
      by_cases h2 : a < 12 * (n + 1)
      · obtain ⟨j, hj, rfl⟩ : ∃ j, j < 12 ∧ a = 12 * n + j := ⟨a - 12 * n, by omega, by omega⟩
        rw [expandBodyInto_unit n _ _ j (by omega) hj, if_pos h2]
        have e1 : (12 * n + j) / 12 = n := by omega
        have e2 : (12 * n + j) % 12 = j := by omega
        rw [e1, e2]
      · rw [expandBodyInto_frame n _ _ a (Or.inr (by omega)), if_neg h2]

/-! ## The two entry points -/

theorem compressBuffer_apply (b : Buffer) (a : Nat) :
    (compressBuffer b).1.read a
      = if a < 1152 then packedByte (fun t => b.read (12 * (a / 9) + t)) (a % 9)
        else b.read a := by
  show (compressLoop UNIT_COUNT b).read a = _
  rw [compressLoop_apply _ (by decide)]
  rfl

theorem expandBuffer_apply (b : Buffer) (a : Nat) :
    (expandBuffer b).1.read a
      = if a < 1536 then unpackedByte (fun t => b.read (9 * (a / 12) + t)) (a % 12)
        else b.read a := by
  show (expandLoop UNIT_COUNT b).read a = _
  rw [expandLoop_apply _ (by decide)]
  rfl

theorem compressInto_apply (src b : Buffer) (a : Nat) :
    (compressInto src b).read a
      = if a < 1152 then packedByte (fun t => src.read (12 * (a / 9) + t)) (a % 9)
        else b.read a := by
  unfold compressInto
  rw [compressInto_fold _ (by decide)]
  rfl

theorem expandInto_apply (src b : Buffer) (a : Nat) :
    (expandInto src b).read a
      = if a < 1536 then unpackedByte (fun t => src.read (9 * (a / 12) + t)) (a % 12)
        else b.read a := by
  unfold expandInto
  rw [expandInto_fold _ (by decide)]
  rfl

/-! ## Compression followed by expansion -/

theorem getField_pack4_3 (f : BitField) (x b c d : Byte) :
    getField .lloooooo (pack4 (getField f x) b c d) = getField f x := by
  apply Fin.ext
  rw [getField_pack4]
  exact Nat.mod_eq_of_lt (getField_lt f x)

theorem getField_pack4_2 (f : BitField) (x a c d : Byte) :
    getField .oolloooo (pack4 a (getField f x) c d) = getField f x := by
  apply Fin.ext
  rw [getField_pack4]
  exact Nat.mod_eq_of_lt (getField_lt f x)

theorem getField_pack4_1 (f : BitField) (x a b d : Byte) :
    getField .oooolloo (pack4 a b (getField f x) d) = getField f x := by
  apply Fin.ext
  rw [getField_pack4]
  exact Nat.mod_eq_of_lt (getField_lt f x)

theorem getField_pack4_0 (f : BitField) (x a b c : Byte) :
    getField .ooooooll (pack4 a b c (getField f x)) = getField f x := by
  apply Fin.ext
  rw [getField_pack4]
  exact Nat.mod_eq_of_lt (getField_lt f x)

theorem pack4_getField (x : Byte) :
    pack4 (getField .lloooooo x) (getField .oolloooo x) (getField .oooolloo x)
      (getField .ooooooll x) = x :=
  (byte_eta x).symm

/-- Unpacking a packed unit: the payload bytes come back, a top byte comes back as
the decryption of its two most significant bits. -/
theorem unpackedByte_packedByte (u : Nat → Byte) (j : Nat) (hj : j < 12) :
    unpackedByte (packedByte u) j
      = if j % 3 = 0 then decryptByte (getField .lloooooo (u j)) else u j := by
  interval_cases j <;>
    simp only [unpackedByte, packedByte, getField_pack4_3, getField_pack4_2, getField_pack4_1,
      getField_pack4_0, pack4_getField] <;> rfl

theorem compressBuffer_unit (b : Buffer) (k j : Nat) (hk : k < 128) (hj : j < 9) :
    (compressBuffer b).1.read (9 * k + j) = packedByte (fun t => b.read (12 * k + t)) j := by
  rw [compressBuffer_apply, if_pos (by omega)]
  have e1 : (9 * k + j) / 9 = k := by omega
  have e2 : (9 * k + j) % 9 = j := by omega
  rw [e1, e2]

theorem expandBuffer_unit (b : Buffer) (k j : Nat) (hk : k < 128) (hj : j < 12) :
    (expandBuffer b).1.read (12 * k + j) = unpackedByte (fun t => b.read (9 * k + t)) j := by
  rw [expandBuffer_apply, if_pos (by omega)]
  have e1 : (12 * k + j) / 12 = k := by omega
  have e2 : (12 * k + j) % 12 = j := by omega
  rw [e1, e2]

/-- Effect of `compressBuffer` followed by `expandBuffer` on every byte of the buffer. -/
theorem compress_expand_apply (b : Buffer) (a : Nat) (ha : a < 1536) :
    (expandBuffer (compressBuffer b).1).1.read a
      = if a % 3 = 0 then decryptByte (getField .lloooooo (b.read a)) else b.read a := by
  rw [expandBuffer_apply, if_pos ha]
  have hc : unpackedByte (fun t => (compressBuffer b).1.read (9 * (a / 12) + t)) (a % 12)
      = unpackedByte (packedByte (fun t => b.read (12 * (a / 12) + t))) (a % 12) := by
    apply unpackedByte_congr
    intro t ht
    exact compressBuffer_unit b (a / 12) t (by omega) ht
  rw [hc, unpackedByte_packedByte _ _ (Nat.mod_lt _ (by decide))]
  have e3 : a % 12 % 3 = a % 3 := by omega
  have e4 : 12 * (a / 12) + a % 12 = a := by omega
  simp only [e3, e4]

theorem decryptByte_topBits_of_sentinel (x : Byte) (h : isSentinel x) :
    decryptByte (getField .lloooooo x) = x := by
  rcases h with rfl | rfl | rfl | rfl <;> rfl

theorem decryptByte_topBits_cases (x : Byte) :
    (x.val < 0x40 → decryptByte (getField .lloooooo x) = 0x00)
    ∧ (0x40 ≤ x.val → x.val < 0x80 → decryptByte (getField .lloooooo x) = 0x7F)
    ∧ (0x80 ≤ x.val → x.val < 0xC0 → decryptByte (getField .lloooooo x) = 0x80)
    ∧ (0xC0 ≤ x.val → decryptByte (getField .lloooooo x) = 0xFF) := by
  have hx := x.isLt
  have h4 : (getField .lloooooo x).val = x.val / 64 := by
    simp only [getField_val, BitField.shift]; omega
  refine ⟨?_, ?_, ?_, ?_⟩
  · intro h
    have e : getField .lloooooo x = 0 := Fin.ext (by rw [h4]; show x.val / 64 = 0; omega)
    rw [e]; rfl
  · intro h h'
    have e : getField .lloooooo x = 1 := Fin.ext (by rw [h4]; show x.val / 64 = 1; omega)
    rw [e]; rfl
  · intro h h'
    have e : getField .lloooooo x = 2 := Fin.ext (by rw [h4]; show x.val / 64 = 2; omega)
    rw [e]; rfl
  · intro h
    have e : getField .lloooooo x = 3 := Fin.ext (by rw [h4]; show x.val / 64 = 3; omega)
    rw [e]; rfl

theorem decryptByte_eq_decode (x : Byte) : decryptByte x = SentinelCodec.decode x.val := rfl

theorem topTwoBits_of_sentinel (x : Byte) (h : isSentinel x) :
    topTwoBits x = SentinelCodec.encode x := by
  rcases h with rfl | rfl | rfl | rfl <;> rfl

/-! ## The compressed unit as a 72-bit stream -/

theorem byte_val_fields (x : Byte) :
    x.val = 64 * (getField .lloooooo x).val + 16 * (getField .oolloooo x).val
      + 4 * (getField .oooolloo x).val + (getField .ooooooll x).val := by
  have hx := x.isLt
  simp only [getField_val, BitField.shift]
  omega

theorem getField_mod (f : BitField) (x : Byte) : (getField f x).val % 4 = (getField f x).val :=
  Nat.mod_eq_of_lt (getField_lt f x)

theorem topTwoBits_eq (x : Byte) : topTwoBits x = (getField .lloooooo x).val := by
  have hx := x.isLt
  simp only [topTwoBits, getField_val, BitField.shift]
  omega

/-- The nine packed bytes of a unit, read as one 72-bit number, are the four
18-bit fields of the unit one after the other. -/
theorem packedByte_stream (u : Nat → Byte) :
    (packedByte u 0).val * 2 ^ 64 + (packedByte u 1).val * 2 ^ 56
      + (packedByte u 2).val * 2 ^ 48 + (packedByte u 3).val * 2 ^ 40
      + (packedByte u 4).val * 2 ^ 32 + (packedByte u 5).val * 2 ^ 24
      + (packedByte u 6).val * 2 ^ 16 + (packedByte u 7).val * 2 ^ 8
      + (packedByte u 8).val
    = concat72 (field18 (topTwoBits (u 0)) (u 1) (u 2)) (field18 (topTwoBits (u 3)) (u 4) (u 5))
        (field18 (topTwoBits (u 6)) (u 7) (u 8)) (field18 (topTwoBits (u 9)) (u 10) (u 11)) := by
  have e1 := byte_val_fields (u 1)
  have e2 := byte_val_fields (u 2)
  have e4 := byte_val_fields (u 4)
  have e5 := byte_val_fields (u 5)
  have e7 := byte_val_fields (u 7)
  have e8 := byte_val_fields (u 8)
  simp only [packedByte, pack4_val, getField_mod, concat72, field18, topTwoBits_eq]
  rw [e1, e2, e4, e5, e7, e8]
  ring

theorem stream72_compressBuffer (b : Buffer) (k : Nat) (hk : k < 128) :
    stream72 (compressBuffer b).1 (9 * k) = packedStream topTwoBits b (12 * k) := by
  have h0 : (compressBuffer b).1.read (9 * k) = packedByte (fun t => b.read (12 * k + t)) 0 :=
    compressBuffer_unit b k 0 hk (by decide)
  unfold stream72
  rw [h0, compressBuffer_unit b k 1 hk (by decide), compressBuffer_unit b k 2 hk (by decide),
    compressBuffer_unit b k 3 hk (by decide), compressBuffer_unit b k 4 hk (by decide),
    compressBuffer_unit b k 5 hk (by decide), compressBuffer_unit b k 6 hk (by decide),
    compressBuffer_unit b k 7 hk (by decide), compressBuffer_unit b k 8 hk (by decide)]
  exact packedByte_stream (fun t => b.read (12 * k + t))

theorem stream72_val (b : Buffer) (base : Nat) :
    stream72 b base = (b.read base).val * 2 ^ 64 + (b.read (base + 1)).val * 2 ^ 56
    + (b.read (base + 2)).val * 2 ^ 48 + (b.read (base + 3)).val * 2 ^ 40
    + (b.read (base + 4)).val * 2 ^ 32 + (b.read (base + 5)).val * 2 ^ 24
    + (b.read (base + 6)).val * 2 ^ 16 + (b.read (base + 7)).val * 2 ^ 8
    + (b.read (base + 8)).val := rfl

/-- The four code fields of a compressed unit sit at the bit positions 0, 18, 36
and 54 of its 72-bit stream. -/
theorem streamBits_code (b : Buffer) (base : Nat) :
    streamBits (stream72 b base) 0 2 = (getField .lloooooo (b.read base)).val
    ∧ streamBits (stream72 b base) 18 2 = (getField .oolloooo (b.read (base + 2))).val
    ∧ streamBits (stream72 b base) 36 2 = (getField .oooolloo (b.read (base + 4))).val
    ∧ streamBits (stream72 b base) 54 2 = (getField .ooooooll (b.read (base + 6))).val := by
  have h0 := (b.read base).isLt
  have h1 := (b.read (base + 1)).isLt
  have h2 := (b.read (base + 2)).isLt
  have h3 := (b.read (base + 3)).isLt
  have h4 := (b.read (base + 4)).isLt
  have h5 := (b.read (base + 5)).isLt
  have h6 := (b.read (base + 6)).isLt
  have h7 := (b.read (base + 7)).isLt
  have h8 := (b.read (base + 8)).isLt
  simp only [streamBits, stream72_val, getField_val, BitField.shift]
  norm_num
  refine ⟨?_, ?_, ?_, ?_⟩ <;> omega

/-- The four 16-bit payloads of a compressed unit sit at the bit positions 2, 20,
38 and 56 of its 72-bit stream. -/
theorem streamBits_payload (b : Buffer) (base : Nat) :
    streamBits (stream72 b base) 2 16
      = (unpackedByte (fun t => b.read (base + t)) 1).val * 2 ^ 8
        + (unpackedByte (fun t => b.read (base + t)) 2).val
    ∧ streamBits (stream72 b base) 20 16
      = (unpackedByte (fun t => b.read (base + t)) 4).val * 2 ^ 8
        + (unpackedByte (fun t => b.read (base + t)) 5).val
    ∧ streamBits (stream72 b base) 38 16
      = (unpackedByte (fun t => b.read (base + t)) 7).val * 2 ^ 8
        + (unpackedByte (fun t => b.read (base + t)) 8).val
    ∧ streamBits (stream72 b base) 56 16
      = (unpackedByte (fun t => b.read (base + t)) 10).val * 2 ^ 8
        + (unpackedByte (fun t => b.read (base + t)) 11).val := by
  have h0 := (b.read base).isLt
  have h1 := (b.read (base + 1)).isLt
  have h2 := (b.read (base + 2)).isLt
  have h3 := (b.read (base + 3)).isLt
  have h4 := (b.read (base + 4)).isLt
  have h5 := (b.read (base + 5)).isLt
  have h6 := (b.read (base + 6)).isLt
  have h7 := (b.read (base + 7)).isLt
  have h8 := (b.read (base + 8)).isLt
  simp only [streamBits, stream72_val, unpackedByte, pack4_val, getField_val, BitField.shift,
    Nat.add_zero]
  norm_num
  refine ⟨?_, ?_, ?_, ?_⟩ <;> omega

theorem storedCode_compressBuffer (b : Buffer) (s : Nat) (hs : s < 512) :
    storedCode (compressBuffer b).1 s = topTwoBits (b.read (3 * s)) := by
  have hk : s / 4 < 128 := by omega
  obtain ⟨c0, c1, c2, c3⟩ := streamBits_code (compressBuffer b).1 (9 * (s / 4))
  have h0 : (compressBuffer b).1.read (9 * (s / 4))
      = packedByte (fun t => b.read (12 * (s / 4) + t)) 0 :=
    compressBuffer_unit b (s / 4) 0 hk (by decide)
  rw [h0] at c0
  rw [compressBuffer_unit b (s / 4) 2 hk (by decide)] at c1
  rw [compressBuffer_unit b (s / 4) 4 hk (by decide)] at c2
  rw [compressBuffer_unit b (s / 4) 6 hk (by decide)] at c3
  simp only [packedByte, getField_pack4_3, getField_pack4_2, getField_pack4_1,
    getField_pack4_0] at c0 c1 c2 c3
  have h4 : s % 4 = 0 ∨ s % 4 = 1 ∨ s % 4 = 2 ∨ s % 4 = 3 := by omega
  unfold storedCode
  rw [topTwoBits_eq]
  rcases h4 with h | h | h | h <;> rw [h]
  · have e : 3 * s = 12 * (s / 4) + 0 := by omega
    rw [e]; exact c0
  · have e : 3 * s = 12 * (s / 4) + 3 := by omega
    rw [e]; exact c1
  · have e : 3 * s = 12 * (s / 4) + 6 := by omega
    rw [e]; exact c2
  · have e : 3 * s = 12 * (s / 4) + 9 := by omega
    rw [e]; exact c3

/-! ## The test buffers -/

theorem originalBuffer_read (a : Nat) (ha : a < 1536) :
    originalBuffer.read a
      = if a % 3 = 0 then compressableByte ((a / 3) % 4) else 0xFF :=
  Buffer.read_ofFn _ a ha

theorem sampleBuffer_read (top hi lo : Byte) (a : Nat) (ha : a < 1536) :
    (sampleBuffer top hi lo).read a
      = if a % 3 = 0 then top else if a % 3 = 1 then hi else lo :=
  Buffer.read_ofFn _ a ha

theorem originalBuffer_sentinel (i : Nat) (hi : i < 512) :
    isSentinel (originalBuffer.read (3 * i)) := by
  have e1 : 3 * i % 3 = 0 := by omega
  have e2 : 3 * i / 3 = i := by omega
  have h4 : i % 4 = 0 ∨ i % 4 = 1 ∨ i % 4 = 2 ∨ i % 4 = 3 := by omega
  rw [originalBuffer_read _ (by omega), if_pos e1, e2]
  rcases h4 with h | h | h | h <;> rw [h] <;> decide

/-! ## Claims -/

/-- C1. Round trip: when the top byte (offset `3 * i`) of every one of the 512
samples is one of `0x00, 0x7F, 0x80, 0xFF`, `compressBuffer` followed by
`expandBuffer` on the same buffer gives back the original buffer, all
`DMA_SIZE = 1536` bytes of it. -/
theorem compress_expand_roundtrip (b : Buffer)
    (h : ∀ i, i < 512 → isSentinel (b.read (3 * i))) :
    (expandBuffer (compressBuffer b).1).1 = b := by
  apply Buffer.ext_read
  intro a ha
  rw [compress_expand_apply b a ha]
  split
  · next h3 =>
    have hs := h (a / 3) (by unfold DMA_SIZE at ha; omega)
    have e : 3 * (a / 3) = a := by omega
    rw [e] at hs
    exact decryptByte_topBits_of_sentinel _ hs
  · rfl

/-- C1 on the buffer that `main` builds: the comparison of `main` succeeds. -/
theorem compress_expand_roundtrip_witness :
    (∀ i, i < 512 → isSentinel (originalBuffer.read (3 * i)))
    ∧ (expandBuffer (compressBuffer originalBuffer).1).1 = originalBuffer :=
  ⟨originalBuffer_sentinel, compress_expand_roundtrip originalBuffer originalBuffer_sentinel⟩

/-- C2 as stated fails: with the code taken from the encode table of the
specification, the unit `(0x01, 0xAA, 0xBB) × 4` would start with the code `0b11`;
`compressBuffer` stores `0b00`, the two top bits of `0x01`. -/
theorem compressed_layout_encode_counterexample :
    stream72 (compressBuffer (sampleBuffer 0x01 0xAA 0xBB)).1 (9 * 0)
      ≠ packedStream SentinelCodec.encode (sampleBuffer 0x01 0xAA 0xBB) (12 * 0) := by
  rw [stream72_compressBuffer _ 0 (by decide)]
  simp only [packedStream, sampleBuffer_read _ _ _ _ (by decide : 12 * 0 < 1536),
    sampleBuffer_read _ _ _ _ (by decide : 12 * 0 + 1 < 1536),
    sampleBuffer_read _ _ _ _ (by decide : 12 * 0 + 2 < 1536),
    sampleBuffer_read _ _ _ _ (by decide : 12 * 0 + 3 < 1536),
    sampleBuffer_read _ _ _ _ (by decide : 12 * 0 + 4 < 1536),
    sampleBuffer_read _ _ _ _ (by decide : 12 * 0 + 5 < 1536),
    sampleBuffer_read _ _ _ _ (by decide : 12 * 0 + 6 < 1536),
    sampleBuffer_read _ _ _ _ (by decide : 12 * 0 + 7 < 1536),
    sampleBuffer_read _ _ _ _ (by decide : 12 * 0 + 8 < 1536),
    sampleBuffer_read _ _ _ _ (by decide : 12 * 0 + 9 < 1536),
    sampleBuffer_read _ _ _ _ (by decide : 12 * 0 + 10 < 1536),
    sampleBuffer_read _ _ _ _ (by decide : 12 * 0 + 11 < 1536)]
  decide

/-- C2, amended. For every buffer and every unit `k < 128`, after `compressBuffer`
the nine bytes at offsets `9 * k .. 9 * k + 8`, read MSB first, are the 72-bit
concatenation `code_0 payload_0 .. code_3 payload_3` of the original expanded unit
at `12 * k`, where `payload_i` is bytes 1 and 2 of sample `i` and `code_i` is the
two top bits of its byte 0; for a sentinel byte 0 these two bits are its sentinel
code. -/
theorem compressed_layout (b : Buffer) (k : Nat) (hk : k < 128) :
    stream72 (compressBuffer b).1 (9 * k) = packedStream topTwoBits b (12 * k)
    ∧ ∀ i, i < 4 → isSentinel (b.read (12 * k + 3 * i)) →
        topTwoBits (b.read (12 * k + 3 * i)) = SentinelCodec.encode (b.read (12 * k + 3 * i)) :=
  ⟨stream72_compressBuffer b k hk, fun _ _ hs => topTwoBits_of_sentinel _ hs⟩

/-- C2 amended, on the last unit of the buffer of `main`. -/
theorem compressed_layout_witness :
    127 < 128 ∧
    (stream72 (compressBuffer originalBuffer).1 (9 * 127)
        = packedStream topTwoBits originalBuffer (12 * 127)
      ∧ ∀ i, i < 4 → isSentinel (originalBuffer.read (12 * 127 + 3 * i)) →
          topTwoBits (originalBuffer.read (12 * 127 + 3 * i))
            = SentinelCodec.encode (originalBuffer.read (12 * 127 + 3 * i))) :=
  ⟨by decide, compressed_layout originalBuffer 127 (by decide)⟩

/-- C3. Expansion semantics: for every buffer and every unit `k < 128`, after
`expandBuffer` sample `i` of the expanded unit at `12 * k` has as byte 0 the decode
of the 2-bit code at bit `18 * i` of the 72-bit stream of the original nine bytes at
`9 * k`, and as bytes 1 and 2 the 16 bits that follow that code. -/
theorem expandBuffer_semantics (b : Buffer) (k : Nat) (hk : k < 128) (i : Nat) (hi : i < 4) :
    (expandBuffer b).1.read (12 * k + 3 * i)
      = SentinelCodec.decode (streamBits (stream72 b (9 * k)) (18 * i) 2)
    ∧ ((expandBuffer b).1.read (12 * k + 3 * i + 1)).val * 2 ^ 8
        + ((expandBuffer b).1.read (12 * k + 3 * i + 2)).val
      = streamBits (stream72 b (9 * k)) (18 * i + 2) 16 := by
  obtain ⟨c0, c1, c2, c3⟩ := streamBits_code b (9 * k)
  obtain ⟨p0, p1, p2, p3⟩ := streamBits_payload b (9 * k)
  have e0 : (expandBuffer b).1.read (12 * k + 3 * i)
      = unpackedByte (fun t => b.read (9 * k + t)) (3 * i) :=
    expandBuffer_unit b k (3 * i) hk (by omega)
  have e1 : (expandBuffer b).1.read (12 * k + 3 * i + 1)
      = unpackedByte (fun t => b.read (9 * k + t)) (3 * i + 1) :=
    expandBuffer_unit b k (3 * i + 1) hk (by omega)
  have e2 : (expandBuffer b).1.read (12 * k + 3 * i + 2)
      = unpackedByte (fun t => b.read (9 * k + t)) (3 * i + 2) :=
    expandBuffer_unit b k (3 * i + 2) hk (by omega)
  rw [e0, e1, e2]
  interval_cases i
  · exact ⟨by rw [c0, ← decryptByte_eq_decode]; rfl, p0.symm⟩
  · exact ⟨by rw [c1, ← decryptByte_eq_decode]; rfl, p1.symm⟩
  · exact ⟨by rw [c2, ← decryptByte_eq_decode]; rfl, p2.symm⟩
  · exact ⟨by rw [c3, ← decryptByte_eq_decode]; rfl, p3.symm⟩

/-- C3 at unit 5, sample 2 of the buffer of `main`. -/
theorem expandBuffer_semantics_witness :
    5 < 128 ∧ 2 < 4 ∧
    ((expandBuffer originalBuffer).1.read (12 * 5 + 3 * 2)
        = SentinelCodec.decode (streamBits (stream72 originalBuffer (9 * 5)) (18 * 2) 2)
      ∧ ((expandBuffer originalBuffer).1.read (12 * 5 + 3 * 2 + 1)).val * 2 ^ 8
          + ((expandBuffer originalBuffer).1.read (12 * 5 + 3 * 2 + 2)).val
        = streamBits (stream72 originalBuffer (9 * 5)) (18 * 2 + 2) 16) :=
  ⟨by decide, by decide, expandBuffer_semantics originalBuffer 5 (by decide) 2 (by decide)⟩

/-- C4. In-place safety: for every buffer, `compressBuffer` followed by
`expandBuffer` on the one buffer leaves the same `DMA_SIZE = 1536` bytes as packing
every unit into a separate buffer (whatever it held before) and unpacking that one
into a third buffer (whatever it held before). -/
theorem inplace_eq_outOfPlace (b aux1 aux2 : Buffer) :
    (expandBuffer (compressBuffer b).1).1 = expandInto (compressInto b aux1) aux2 := by
  apply Buffer.ext_read
  intro a ha
  have ha' : a < 1536 := ha
  rw [expandBuffer_apply, expandInto_apply, if_pos ha', if_pos ha']
  apply unpackedByte_congr
  intro t ht
  show (compressBuffer b).1.read (9 * (a / 12) + t) = (compressInto b aux1).read (9 * (a / 12) + t)
  rw [compressBuffer_apply, compressInto_apply, if_pos (by omega), if_pos (by omega)]

/-- C5. Payload preservation: for every buffer, whatever its top bytes, and every
sample `s < 512`, bytes `3 * s + 1` and `3 * s + 2` are the same after
`compressBuffer` followed by `expandBuffer` as before. -/
theorem payload_preserved (b : Buffer) (s : Nat) (hs : s < 512) :
    (expandBuffer (compressBuffer b).1).1.read (3 * s + 1) = b.read (3 * s + 1)
    ∧ (expandBuffer (compressBuffer b).1).1.read (3 * s + 2) = b.read (3 * s + 2) := by
  rw [compress_expand_apply b _ (by omega), compress_expand_apply b _ (by omega),
    if_neg (by omega), if_neg (by omega)]
  exact ⟨rfl, rfl⟩

/-- C5 on the last sample of a buffer whose top bytes are not sentinel values. -/
theorem payload_preserved_witness :
    511 < 512 ∧
    ((expandBuffer (compressBuffer (sampleBuffer 0x01 0xAA 0xBB)).1).1.read (3 * 511 + 1)
        = (sampleBuffer 0x01 0xAA 0xBB).read (3 * 511 + 1)
      ∧ (expandBuffer (compressBuffer (sampleBuffer 0x01 0xAA 0xBB)).1).1.read (3 * 511 + 2)
        = (sampleBuffer 0x01 0xAA 0xBB).read (3 * 511 + 2)) :=
  ⟨by decide, payload_preserved (sampleBuffer 0x01 0xAA 0xBB) 511 (by decide)⟩

/-- C6. Size law: whatever the buffer holds, `compressBuffer` returns
`1152 = 9 * (DMA_SIZE / 12) = 0.75 * DMA_SIZE` and `expandBuffer` returns
`1536 = DMA_SIZE`, and neither value is cut by the `uint16_t` return type. -/
theorem size_law (b : Buffer) :
    (compressBuffer b).2 = 1152 ∧ 1152 = 9 * (DMA_SIZE / 12) ∧ 4 * 1152 = 3 * DMA_SIZE
    ∧ (expandBuffer b).2 = 1536 ∧ DMA_SIZE = 1536
    ∧ (3 * DMA_SIZE) / 4 < 2 ^ 16 ∧ DMA_SIZE < 2 ^ 16 := by
  refine ⟨rfl, ?_, ?_, rfl, rfl, ?_, ?_⟩ <;> decide

/-- C7 as stated fails: the top byte `0x01` is not a sentinel value, and after
`compressBuffer` and `expandBuffer` it is `0x00`, not `0xFF`. -/
theorem lossy_fallback_counterexample :
    ¬ isSentinel ((sampleBuffer 0x01 0xAA 0xBB).read (3 * 0))
    ∧ (expandBuffer (compressBuffer (sampleBuffer 0x01 0xAA 0xBB)).1).1.read (3 * 0) = 0x00
    ∧ (expandBuffer (compressBuffer (sampleBuffer 0x01 0xAA 0xBB)).1).1.read (3 * 0) ≠ 0xFF := by
  rw [compress_expand_apply _ _ (by decide), sampleBuffer_read _ _ _ _ (by decide)]
  decide

/-- C7, amended. For every buffer and every sample `s < 512` with top byte `x`,
after `compressBuffer` followed by `expandBuffer` the top byte is `x` itself when
`x` is a sentinel value, and otherwise the sentinel value that has the two top
bits of `x`: `0x00` for `x < 0x40`, `0x7F` for `0x40 ≤ x < 0x80`, `0x80` for
`0x80 ≤ x < 0xC0`, and `0xFF` for `0xC0 ≤ x`. -/
theorem top_byte_after_roundtrip (b : Buffer) (s : Nat) (hs : s < 512) :
    (isSentinel (b.read (3 * s)) →
      (expandBuffer (compressBuffer b).1).1.read (3 * s) = b.read (3 * s))
    ∧ ((b.read (3 * s)).val < 0x40 →
        (expandBuffer (compressBuffer b).1).1.read (3 * s) = 0x00)
    ∧ (0x40 ≤ (b.read (3 * s)).val → (b.read (3 * s)).val < 0x80 →
        (expandBuffer (compressBuffer b).1).1.read (3 * s) = 0x7F)
    ∧ (0x80 ≤ (b.read (3 * s)).val → (b.read (3 * s)).val < 0xC0 →
        (expandBuffer (compressBuffer b).1).1.read (3 * s) = 0x80)
    ∧ (0xC0 ≤ (b.read (3 * s)).val →
        (expandBuffer (compressBuffer b).1).1.read (3 * s) = 0xFF) := by
  rw [compress_expand_apply b _ (by omega), if_pos (by omega)]
  exact ⟨decryptByte_topBits_of_sentinel _, decryptByte_topBits_cases _⟩

/-- C7 amended, on sample 3 of a buffer whose top bytes are `0x41`: the top byte
comes back as `0x7F`. -/
theorem top_byte_after_roundtrip_witness :
    3 < 512 ∧ 0x40 ≤ ((sampleBuffer 0x41 0xAA 0xBB).read (3 * 3)).val
    ∧ ((sampleBuffer 0x41 0xAA 0xBB).read (3 * 3)).val < 0x80
    ∧ (expandBuffer (compressBuffer (sampleBuffer 0x41 0xAA 0xBB)).1).1.read (3 * 3) = 0x7F :=
  have h : (sampleBuffer 0x41 0xAA 0xBB).read (3 * 3) = 0x41 := by
    rw [sampleBuffer_read _ _ _ _ (by decide)]; rfl
  ⟨by decide, by rw [h]; decide, by rw [h]; decide,
    (top_byte_after_roundtrip (sampleBuffer 0x41 0xAA 0xBB) 3 (by decide)).2.2.1
      (by rw [h]; decide) (by rw [h]; decide)⟩

/-- C8 as stated fails: for the top byte `0x01`, which is none of `0x00`, `0x7F`,
`0x80`, the encode table gives `0b11`, and `compressBuffer` stores `0b00`. -/
theorem encode_table_counterexample :
    storedCode (compressBuffer (sampleBuffer 0x01 0xAA 0xBB)).1 0 = 0
    ∧ SentinelCodec.encode ((sampleBuffer 0x01 0xAA 0xBB).read (3 * 0)) = 3 := by
  rw [storedCode_compressBuffer _ _ (by decide), sampleBuffer_read _ _ _ _ (by decide)]
  decide

/-- C8, amended. For every buffer and every sample `s < 512` with top byte `x`, the
2-bit code that `compressBuffer` stores for the sample is the two top bits of `x`,
`x >> 6`: it is `0b00` for `x = 0x00`, `0b01` for `x = 0x7F`, `0b10` for `x = 0x80`
and `0b11` for `x = 0xFF`, and for every other `x` it is `0b11` exactly when
`0xC0 ≤ x`. -/
theorem stored_code_is_top_bits (b : Buffer) (s : Nat) (hs : s < 512) :
    storedCode (compressBuffer b).1 s = (b.read (3 * s)).val / 64
    ∧ (isSentinel (b.read (3 * s)) →
        storedCode (compressBuffer b).1 s = SentinelCodec.encode (b.read (3 * s)))
    ∧ (storedCode (compressBuffer b).1 s = 3 ↔ 0xC0 ≤ (b.read (3 * s)).val) := by
  have hx := (b.read (3 * s)).isLt
  rw [storedCode_compressBuffer b s hs]
  refine ⟨rfl, topTwoBits_of_sentinel _, ?_⟩
  unfold topTwoBits
  omega

/-- C8 amended, on sample 7 of the buffer of `main`, whose top byte is `0xFF`. -/
theorem stored_code_is_top_bits_witness :
    7 < 512 ∧
    (storedCode (compressBuffer originalBuffer).1 7 = (originalBuffer.read (3 * 7)).val / 64
      ∧ (isSentinel (originalBuffer.read (3 * 7)) →
          storedCode (compressBuffer originalBuffer).1 7
            = SentinelCodec.encode (originalBuffer.read (3 * 7)))
      ∧ (storedCode (compressBuffer originalBuffer).1 7 = 3
          ↔ 0xC0 ≤ (originalBuffer.read (3 * 7)).val)) :=
  ⟨by decide, stored_code_is_top_bits originalBuffer 7 (by decide)⟩

/-- C9. Decode table: `decryptByte` maps the codes 0, 1, 2, 3 to `0x00`, `0x7F`,
`0x80`, `0xFF`, and for every buffer, unit `k < 128` and sample `i < 4`,
`expandBuffer` leaves in byte 0 of sample `i` (unit bytes 0, 3, 6, 9) the
`decryptByte` of the 2-bit code at bit position `18 * i` (0, 18, 36, 54) of the
original compressed unit. -/
theorem decode_table :
    decryptByte 0 = 0x00 ∧ decryptByte 1 = 0x7F ∧ decryptByte 2 = 0x80 ∧ decryptByte 3 = 0xFF
    ∧ ∀ (b : Buffer) (k i : Nat), k < 128 → i < 4 →
        (expandBuffer b).1.read (12 * k + 3 * i)
          = decryptByte (Fin.ofNat (streamBits (stream72 b (9 * k)) (18 * i) 2)) := by
  refine ⟨rfl, rfl, rfl, rfl, ?_⟩
  intro b k i hk hi
  obtain ⟨c0, c1, c2, c3⟩ := streamBits_code b (9 * k)
  have e0 : (expandBuffer b).1.read (12 * k + 3 * i)
      = unpackedByte (fun t => b.read (9 * k + t)) (3 * i) :=
    expandBuffer_unit b k (3 * i) hk (by omega)
  have hof : ∀ x : Byte, (Fin.ofNat x.val : Byte) = x := fun x =>
    Fin.ext (Nat.mod_eq_of_lt x.isLt)
  rw [e0]
  interval_cases i
  · rw [c0, hof]; rfl
  · rw [c1, hof]; rfl
  · rw [c2, hof]; rfl
  · rw [c3, hof]; rfl

/-- C10. Trailing bytes are don't-care for expansion: two buffers that agree on
their first 1152 bytes are left with the same 1536 bytes by `expandBuffer`. -/
theorem expandBuffer_ignores_tail (b1 b2 : Buffer)
    (h : ∀ a, a < 1152 → b1.read a = b2.read a) :
    (expandBuffer b1).1 = (expandBuffer b2).1 := by
  apply Buffer.ext_read
  intro a ha
  have ha' : a < 1536 := ha
  rw [expandBuffer_apply, expandBuffer_apply, if_pos ha', if_pos ha']
  apply unpackedByte_congr
  intro t ht
  exact h _ (by omega)

/-- C10 on the buffer of `main` and a copy of it with `0x55` in every byte from
offset 1152 on. -/
theorem expandBuffer_ignores_tail_witness :
    (∀ a, a < 1152 → originalBuffer.read a
      = (Buffer.ofFn fun i => if i < 1152 then originalBuffer.read i else 0x55).read a)
    ∧ (expandBuffer originalBuffer).1
        = (expandBuffer (Buffer.ofFn fun i =>
            if i < 1152 then originalBuffer.read i else 0x55)).1 :=
  have hagree : ∀ a, a < 1152 → originalBuffer.read a
      = (Buffer.ofFn fun i => if i < 1152 then originalBuffer.read i else 0x55).read a :=
    fun a ha => by
      rw [Buffer.read_ofFn _ a (Nat.lt_trans ha (by decide)), if_pos ha]
  ⟨hagree, expandBuffer_ignores_tail _ _ hagree⟩

/-! ## Order of reads and writes inside one iteration -/

theorem compressBody_eq_runStmts (k : Nat) (b : Buffer) :
    compressBody k b = runStmts (compressStmts k) b := rfl

theorem expandBody_eq_runStmts (k : Nat) (b : Buffer) :
    expandBody k b = runStmts (expandStmts k) b := rfl

theorem compressStmts_readsBeforeWrites (k : Nat) : ReadsBeforeWrites (compressStmts k) := by
  have hk : k = 0 ∨ k = 1 ∨ k = 2 ∨ 3 ≤ k := by omega
  simp only [ReadsBeforeWrites, compressStmts, asCompressed, asExpanded, COMPRESSED_UNIT_SIZE,
    EXPANDED_UNIT_SIZE, List.pairwise_cons, List.mem_cons, List.mem_singleton, forall_eq_or_imp,
    forall_eq, Stmt.src, Stmt.dst, List.not_mem_nil, List.Pairwise.nil, false_implies,
    implies_true, and_true, ne_eq]
  rcases hk with rfl | rfl | rfl | hk <;> omega

theorem expandStmts_readsBeforeWrites (k : Nat) : ReadsBeforeWrites (expandStmts k) := by
  have hk : k = 0 ∨ k = 1 ∨ k = 2 ∨ 3 ≤ k := by omega
  simp only [ReadsBeforeWrites, expandStmts, asCompressed, asExpanded, COMPRESSED_UNIT_SIZE,
    EXPANDED_UNIT_SIZE, List.pairwise_cons, List.mem_cons, List.mem_singleton, forall_eq_or_imp,
    forall_eq, Stmt.src, Stmt.dst, List.not_mem_nil, List.Pairwise.nil, false_implies,
    implies_true, and_true, ne_eq]
  rcases hk with rfl | rfl | rfl | hk <;> omega

/-! ## Expansion followed by compression -/

theorem getField_decryptByte (f : BitField) (x : Byte) :
    getField .lloooooo (decryptByte (getField f x)) = getField f x := by
  have h := getField_lt f x
  generalize getField f x = c at h
  have hv : c.val = 0 ∨ c.val = 1 ∨ c.val = 2 ∨ c.val = 3 := by omega
  rcases hv with h0 | h0 | h0 | h0
  · have e : c = 0 := Fin.ext h0
    subst e; decide
  · have e : c = 1 := Fin.ext h0
    subst e; decide
  · have e : c = 2 := Fin.ext h0
    subst e; decide
  · have e : c = 3 := Fin.ext h0
    subst e; decide

theorem decryptByte_isSentinel (x : Byte) : isSentinel (decryptByte x) := by
  unfold decryptByte isSentinel
  split <;> simp

/-- Packing an unpacked unit gives back the nine bytes. -/
theorem packedByte_unpackedByte (c : Nat → Byte) (j : Nat) (hj : j < 9) :
    packedByte (unpackedByte c) j = c j := by
  interval_cases j <;>
    simp only [unpackedByte, packedByte, getField_pack4_3, getField_pack4_2, getField_pack4_1,
      getField_pack4_0, getField_decryptByte, pack4_getField]

/-- Effect of `expandBuffer` followed by `compressBuffer` on the first 1152 bytes. -/
theorem expand_compress_apply (b : Buffer) (a : Nat) (ha : a < 1152) :
    (compressBuffer (expandBuffer b).1).1.read a = b.read a := by
  rw [compressBuffer_apply, if_pos ha]
  have hc : packedByte (fun t => (expandBuffer b).1.read (12 * (a / 9) + t)) (a % 9)
      = packedByte (unpackedByte (fun t => b.read (9 * (a / 9) + t))) (a % 9) := by
    apply packedByte_congr
    intro t ht
    exact expandBuffer_unit b (a / 9) t (by omega) ht
  rw [hc, packedByte_unpackedByte _ _ (Nat.mod_lt _ (by decide))]
  have e : 9 * (a / 9) + a % 9 = a := by omega
  simp only [e]

/-- The packed bytes depend on a top byte only through its two top bits. -/
theorem packedByte_congr_top (u v : Nat → Byte) (j : Nat)
    (hp : ∀ t, t < 12 → t % 3 ≠ 0 → u t = v t)
    (ht : ∀ t, t < 12 → t % 3 = 0 → getField .lloooooo (u t) = getField .lloooooo (v t)) :
    packedByte u j = packedByte v j := by
  unfold packedByte
  split <;> simp only [hp 1 (by decide) (by decide), hp 2 (by decide) (by decide),
    hp 4 (by decide) (by decide), hp 5 (by decide) (by decide), hp 7 (by decide) (by decide),
    hp 8 (by decide) (by decide), hp 10 (by decide) (by decide),
    hp 11 (by decide) (by decide), ht 0 (by decide) (by decide), ht 3 (by decide) (by decide),
    ht 6 (by decide) (by decide), ht 9 (by decide) (by decide)]

theorem getField_top_eq_of_div (x y : Byte) (h : x.val / 64 = y.val / 64) :
    getField .lloooooo x = getField .lloooooo y := by
  apply Fin.ext
  simp only [getField_val, BitField.shift]
  rw [show (2 : Nat) ^ 6 = 64 from rfl, h]

/-! ## The scenario buffer `(0x00, 0xAA, 0xBB)` -/

theorem sampleBuffer_unit (top hi lo : Byte) (k t : Nat) (hk : k < 128) (ht : t < 12) :
    (sampleBuffer top hi lo).read (12 * k + t)
      = if t % 3 = 0 then top else if t % 3 = 1 then hi else lo := by
  rw [sampleBuffer_read _ _ _ _ (by omega)]
  have e : (12 * k + t) % 3 = t % 3 := by omega
  rw [e]

theorem compressBuffer_sampleBuffer (top hi lo : Byte) (k j : Nat) (hk : k < 128) (hj : j < 9) :
    (compressBuffer (sampleBuffer top hi lo)).1.read (9 * k + j)
      = packedByte (fun t => if t % 3 = 0 then top else if t % 3 = 1 then hi else lo) j := by
  rw [compressBuffer_unit _ k j hk hj]
  apply packedByte_congr
  intro t ht
  exact sampleBuffer_unit top hi lo k t hk ht

/-! ## The descending loop -/

theorem expandUnits_frame (units : List Nat) (m : Nat) (hm : ∀ u ∈ units, m ≤ u) (b : Buffer)
    (a : Nat) (ha : a < 12 * m) :
    (units.foldl (fun buf unit => expandBody unit buf) b).read a = b.read a := by
  induction units generalizing b with
  | nil => rfl
  | cons u rest ih =>
    have hu : m ≤ u := hm u (List.mem_cons_self _ _)
    rw [List.foldl_cons, ih (fun x hx => hm x (List.mem_cons_of_mem _ hx)),
      expandBody_frame u b a (Or.inl (by omega))]

theorem expandLoop_split (k : Nat) (hk : k < 128) (b : Buffer) :
    expandLoop UNIT_COUNT b = expandLoop (k + 1) (expandPrefix k b) := by
  have hr : List.range UNIT_COUNT
      = List.range (k + 1) ++ List.range' (k + 1) (UNIT_COUNT - (k + 1)) := by
    have hU : UNIT_COUNT = 128 := rfl
    rw [List.range_eq_range', List.range_eq_range']
    have h := List.range'_append_1 0 (k + 1) (UNIT_COUNT - (k + 1))
    rw [Nat.zero_add] at h
    rw [h]
    congr 1
    omega
  unfold expandLoop expandPrefix
  rw [hr, List.reverse_append, List.foldl_append]

theorem expandPrefix_frame (k : Nat) (b : Buffer) (a : Nat) (ha : a < 12 * (k + 1)) :
    (expandPrefix k b).read a = b.read a := by
  unfold expandPrefix
  apply expandUnits_frame _ (k + 1) _ b a ha
  intro u hu
  rw [List.mem_reverse, List.mem_range'_1] at hu
  exact hu.1

/-! ## Claims, continued -/

theorem roundtrip_sampleBuffer_zero (hi lo : Byte) :
    (expandBuffer (compressBuffer (sampleBuffer 0x00 hi lo)).1).1 = sampleBuffer 0x00 hi lo := by
  apply Buffer.ext_read
  intro a ha
  have ha' : a < 1536 := ha
  rw [compress_expand_apply _ a ha', sampleBuffer_read _ _ _ _ ha']
  split
  · rfl
  · rfl

/-- C11. Concrete scenario: in the buffer whose every sample is `(0x00, 0xAA, 0xBB)`,
`compressBuffer` leaves in every compressed unit `k < 128` the nine bytes
`2A AE CA AB B2 AA EC AA BB`, the packed stream `00|AABB|00|AABB|00|AABB|00|AABB`
whose first two bits are `00`, and `expandBuffer` then restores every 12-byte unit
to `00 AA BB 00 AA BB 00 AA BB 00 AA BB` and with it the whole buffer. -/
theorem concrete_scenario (k : Nat) (hk : k < 128) :
    ((List.range 9).map fun j =>
        (compressBuffer (sampleBuffer 0x00 0xAA 0xBB)).1.read (9 * k + j))
      = [0x2A, 0xAE, 0xCA, 0xAB, 0xB2, 0xAA, 0xEC, 0xAA, 0xBB]
    ∧ stream72 (compressBuffer (sampleBuffer 0x00 0xAA 0xBB)).1 (9 * k)
      = concat72 (field18 0 0xAA 0xBB) (field18 0 0xAA 0xBB) (field18 0 0xAA 0xBB)
          (field18 0 0xAA 0xBB)
    ∧ streamBits (stream72 (compressBuffer (sampleBuffer 0x00 0xAA 0xBB)).1 (9 * k)) 0 2 = 0
    ∧ ((List.range 12).map fun j =>
        (expandBuffer (compressBuffer (sampleBuffer 0x00 0xAA 0xBB)).1).1.read (12 * k + j))
      = [0x00, 0xAA, 0xBB, 0x00, 0xAA, 0xBB, 0x00, 0xAA, 0xBB, 0x00, 0xAA, 0xBB]
    ∧ (expandBuffer (compressBuffer (sampleBuffer 0x00 0xAA 0xBB)).1).1
      = sampleBuffer 0x00 0xAA 0xBB := by
  have hb : ∀ j, j < 9 → (compressBuffer (sampleBuffer 0x00 0xAA 0xBB)).1.read (9 * k + j)
      = packedByte (fun t => if t % 3 = 0 then 0x00 else if t % 3 = 1 then 0xAA else 0xBB) j :=
    fun j hj => compressBuffer_sampleBuffer _ _ _ k j hk hj
  have hb0 : (compressBuffer (sampleBuffer 0x00 0xAA 0xBB)).1.read (9 * k)
      = packedByte (fun t => if t % 3 = 0 then 0x00 else if t % 3 = 1 then 0xAA else 0xBB) 0 :=
    hb 0 (by decide)
  have hs : stream72 (compressBuffer (sampleBuffer 0x00 0xAA 0xBB)).1 (9 * k)
      = concat72 (field18 0 0xAA 0xBB) (field18 0 0xAA 0xBB) (field18 0 0xAA 0xBB)
          (field18 0 0xAA 0xBB) := by
    unfold stream72
    rw [hb0, hb 1 (by decide), hb 2 (by decide), hb 3 (by decide), hb 4 (by decide),
      hb 5 (by decide), hb 6 (by decide), hb 7 (by decide), hb 8 (by decide)]
    decide
  have h9 : List.range 9 = [0, 1, 2, 3, 4, 5, 6, 7, 8] := by decide
  have h12 : List.range 12 = [0, 1, 2, 3, 4, 5, 6, 7, 8, 9, 10, 11] := by decide
  refine ⟨?_, hs, ?_, ?_, roundtrip_sampleBuffer_zero _ _⟩
  · rw [h9]
    simp only [List.map_cons, List.map_nil]
    rw [hb 0 (by decide), hb 1 (by decide), hb 2 (by decide), hb 3 (by decide),
      hb 4 (by decide), hb 5 (by decide), hb 6 (by decide), hb 7 (by decide), hb 8 (by decide)]
    decide
  · rw [hs]
    decide
  · rw [h12, roundtrip_sampleBuffer_zero]
    simp only [List.map_cons, List.map_nil]
    rw [sampleBuffer_unit _ _ _ k 0 hk (by decide), sampleBuffer_unit _ _ _ k 1 hk (by decide),
      sampleBuffer_unit _ _ _ k 2 hk (by decide), sampleBuffer_unit _ _ _ k 3 hk (by decide),
      sampleBuffer_unit _ _ _ k 4 hk (by decide), sampleBuffer_unit _ _ _ k 5 hk (by decide),
      sampleBuffer_unit _ _ _ k 6 hk (by decide), sampleBuffer_unit _ _ _ k 7 hk (by decide),
      sampleBuffer_unit _ _ _ k 8 hk (by decide), sampleBuffer_unit _ _ _ k 9 hk (by decide),
      sampleBuffer_unit _ _ _ k 10 hk (by decide), sampleBuffer_unit _ _ _ k 11 hk (by decide)]
    decide

/-- C11 on the last unit of the buffer. -/
theorem concrete_scenario_witness :
    127 < 128 ∧
    ((List.range 9).map fun j =>
        (compressBuffer (sampleBuffer 0x00 0xAA 0xBB)).1.read (9 * 127 + j))
      = [0x2A, 0xAE, 0xCA, 0xAB, 0xB2, 0xAA, 0xEC, 0xAA, 0xBB] :=
  ⟨by decide, (concrete_scenario 127 (by decide)).1⟩

theorem stream72_sampleBuffer_shifted (k : Nat) (hk : k + 1 < 128) :
    stream72 (compressBuffer (sampleBuffer 0x00 0xAA 0xBB)).1 (9 * k + 3)
      = 0xABB2AAECAABB2AAECA := by
  have hb : ∀ k j, k < 128 → j < 9 →
      (compressBuffer (sampleBuffer 0x00 0xAA 0xBB)).1.read (9 * k + j)
      = packedByte (fun t => if t % 3 = 0 then 0x00 else if t % 3 = 1 then 0xAA else 0xBB) j :=
    fun k j hk hj => compressBuffer_sampleBuffer _ _ _ k j hk hj
  have e6 : 9 * k + 3 + 6 = 9 * (k + 1) + 0 := by omega
  have e7 : 9 * k + 3 + 7 = 9 * (k + 1) + 1 := by omega
  have e8 : 9 * k + 3 + 8 = 9 * (k + 1) + 2 := by omega
  unfold stream72
  rw [e6, e7, e8, Nat.add_assoc (9 * k) 3 1, Nat.add_assoc (9 * k) 3 2,
    Nat.add_assoc (9 * k) 3 3, Nat.add_assoc (9 * k) 3 4, Nat.add_assoc (9 * k) 3 5,
    hb k 3 (by omega) (by decide), hb k (3 + 1) (by omega) (by decide),
    hb k (3 + 2) (by omega) (by decide), hb k (3 + 3) (by omega) (by decide),
    hb k (3 + 4) (by omega) (by decide), hb k (3 + 5) (by omega) (by decide),
    hb (k + 1) 0 hk (by decide), hb (k + 1) 1 hk (by decide), hb (k + 1) 2 hk (by decide)]
  decide

theorem packedStream_sampleBuffer (k : Nat) (hk : k < 128) :
    packedStream topTwoBits (sampleBuffer 0x00 0xAA 0xBB) (12 * k) = 0x2AAECAABB2AAECAABB := by
  have h0 : (sampleBuffer 0x00 0xAA 0xBB).read (12 * k) = 0x00 :=
    sampleBuffer_unit _ _ _ k 0 hk (by decide)
  unfold packedStream
  rw [h0, sampleBuffer_unit _ _ _ k 1 hk (by decide),
    sampleBuffer_unit _ _ _ k 2 hk (by decide), sampleBuffer_unit _ _ _ k 3 hk (by decide),
    sampleBuffer_unit _ _ _ k 4 hk (by decide), sampleBuffer_unit _ _ _ k 5 hk (by decide),
    sampleBuffer_unit _ _ _ k 6 hk (by decide), sampleBuffer_unit _ _ _ k 7 hk (by decide),
    sampleBuffer_unit _ _ _ k 8 hk (by decide), sampleBuffer_unit _ _ _ k 9 hk (by decide),
    sampleBuffer_unit _ _ _ k 10 hk (by decide), sampleBuffer_unit _ _ _ k 11 hk (by decide)]
  decide

/-- C12 as stated fails: in the buffer whose every sample is `(0x00, 0xAA, 0xBB)`, the
nine bytes at offsets `12 * 1 .. 12 * 1 + 8` after `compressBuffer` are
`AB B2 AA EC AA BB 2A AE CA`, not the compressed form `2A AE CA AB B2 AA EC AA BB` of
unit 1; that one lies at offsets `9 * 1 .. 9 * 1 + 8`. -/
theorem placement_counterexample :
    stream72 (compressBuffer (sampleBuffer 0x00 0xAA 0xBB)).1 (12 * 1)
      ≠ packedStream topTwoBits (sampleBuffer 0x00 0xAA 0xBB) (12 * 1)
    ∧ stream72 (compressBuffer (sampleBuffer 0x00 0xAA 0xBB)).1 (9 * 1)
      = packedStream topTwoBits (sampleBuffer 0x00 0xAA 0xBB) (12 * 1) := by
  refine ⟨?_, stream72_compressBuffer _ 1 (by decide)⟩
  have hv : stream72 (compressBuffer (sampleBuffer 0x00 0xAA 0xBB)).1 (12 * 1)
      = 0xABB2AAECAABB2AAECA := stream72_sampleBuffer_shifted 1 (by decide)
  rw [hv, packedStream_sampleBuffer 1 (by decide)]
  decide

/-- C12, amended. For every unit `k < 128`, iteration `k` of the loop of
`compressBuffer` writes only the nine bytes at offsets `9 * k .. 9 * k + 8`, and after
`compressBuffer` these nine bytes hold the compressed form of the expanded unit
that was at `12 * k .. 12 * k + 11`: the compressed units lie 9 bytes apart from the
base of the buffer, and only unit 0 lies over the low 9 bytes of its own region. -/
theorem compressed_unit_placement (b : Buffer) (k : Nat) (hk : k < 128) :
    (∀ (buf : Buffer) (a : Nat), a < 9 * k ∨ 9 * k + 9 ≤ a →
        (compressBody k buf).read a = buf.read a)
    ∧ stream72 (compressBuffer b).1 (9 * k) = packedStream topTwoBits b (12 * k)
    ∧ (9 * k = 12 * k ↔ k = 0) :=
  ⟨fun buf a h => compressBody_frame k buf a h, stream72_compressBuffer b k hk, by omega⟩

/-- C12 amended, on unit 1 of the buffer of `main`. -/
theorem compressed_unit_placement_witness :
    1 < 128 ∧
    stream72 (compressBuffer originalBuffer).1 (9 * 1)
      = packedStream topTwoBits originalBuffer (12 * 1) :=
  ⟨by decide, (compressed_unit_placement originalBuffer 1 (by decide)).2.1⟩

theorem compressStmts_dst (k : Nat) :
    ∀ s ∈ compressStmts k, 9 * k ≤ s.dst ∧ s.dst ≤ 9 * k + 8 := by
  simp only [compressStmts, asCompressed, asExpanded, COMPRESSED_UNIT_SIZE,
    EXPANDED_UNIT_SIZE, List.mem_cons, List.mem_singleton, forall_eq_or_imp, forall_eq,
    Stmt.dst, List.not_mem_nil, false_implies, implies_true, and_true]
  omega

/-- C13. Ascending-order invariant of `compressBuffer`: for every unit `k < 128`,
every statement of iteration `k` writes a byte at an offset `≤ 12 * k + 9` and
`< 12 * (k + 1)`; after the iterations `0 .. k` every byte at an offset
`≥ 12 * (k + 1)` still has its original value; and no statement of iteration `k`
reads a byte that an earlier statement of the iteration has written. -/
theorem compress_ascending_invariant (k : Nat) (hk : k < 128) :
    (∀ b, compressBody k b = runStmts (compressStmts k) b)
    ∧ (∀ s ∈ compressStmts k, s.dst ≤ 12 * k + 9 ∧ s.dst < 12 * (k + 1))
    ∧ (∀ (b : Buffer) (a : Nat), 12 * (k + 1) ≤ a →
        (compressLoop (k + 1) b).read a = b.read a)
    ∧ ReadsBeforeWrites (compressStmts k) := by
  refine ⟨fun _ => rfl, ?_, ?_, compressStmts_readsBeforeWrites k⟩
  · intro s hs
    have h := compressStmts_dst k s hs
    omega
  · intro b a ha
    rw [compressLoop_apply (k + 1) (by omega) b a, if_neg (by omega)]

/-- C13 on unit 1, where the compressed unit overlaps the expanded unit it is read
from. -/
theorem compress_ascending_invariant_witness :
    1 < 128 ∧ ReadsBeforeWrites (compressStmts 1)
    ∧ (∀ s ∈ compressStmts 1, s.dst ≤ 12 * 1 + 9 ∧ s.dst < 12 * (1 + 1)) :=
  ⟨by decide, (compress_ascending_invariant 1 (by decide)).2.2.2,
    (compress_ascending_invariant 1 (by decide)).2.1⟩

/-- C14. Descending-order invariant of `expandBuffer`: for every unit `k < 128`, at the
moment the loop starts on unit `k`, after the units `127 .. k + 1`, the bytes at
offsets `0 .. 9 * k + 8` still have their original values; the loop then goes on
with the units `k .. 0`; and no statement of iteration `k` reads a byte that an
earlier statement of the iteration has written. -/
theorem expand_descending_invariant (k : Nat) (hk : k < 128) :
    (∀ b, expandLoop UNIT_COUNT b = expandLoop (k + 1) (expandPrefix k b))
    ∧ (∀ (b : Buffer) (a : Nat), a ≤ 9 * k + 8 → (expandPrefix k b).read a = b.read a)
    ∧ (∀ b, expandBody k b = runStmts (expandStmts k) b)
    ∧ ReadsBeforeWrites (expandStmts k) :=
  ⟨fun b => expandLoop_split k hk b,
    fun b a ha => expandPrefix_frame k b a (by omega),
    fun _ => rfl, expandStmts_readsBeforeWrites k⟩

/-- C14 on unit 0, where the expanded unit overlaps the compressed unit it is read
from. -/
theorem expand_descending_invariant_witness :
    0 < 128 ∧ ReadsBeforeWrites (expandStmts 0)
    ∧ (∀ (b : Buffer) (a : Nat), a ≤ 9 * 0 + 8 → (expandPrefix 0 b).read a = b.read a) :=
  ⟨by decide, (expand_descending_invariant 0 (by decide)).2.2.2,
    (expand_descending_invariant 0 (by decide)).2.1⟩

/-- C15. Dropped bits: two buffers that agree on every payload byte and on the two
top bits of every sample top byte, so that they differ at most in the low six bits
of the top bytes at offsets `3 * s`, are left by `compressBuffer` with the same first
1152 bytes. -/
theorem low_six_bits_dropped (b1 b2 : Buffer)
    (hp : ∀ a, a < 1536 → a % 3 ≠ 0 → b1.read a = b2.read a)
    (ht : ∀ s, s < 512 → (b1.read (3 * s)).val / 64 = (b2.read (3 * s)).val / 64)
    (a : Nat) (ha : a < 1152) :
    (compressBuffer b1).1.read a = (compressBuffer b2).1.read a := by
  rw [compressBuffer_apply, compressBuffer_apply, if_pos ha, if_pos ha]
  apply packedByte_congr_top
  · intro t ht3 hne
    exact hp _ (by omega) (by omega)
  · intro t ht3 h0
    apply getField_top_eq_of_div
    have e : 12 * (a / 9) + t = 3 * (4 * (a / 9) + t / 3) := by omega
    rw [e]
    exact ht _ (by omega)

/-- C15 on the buffers with samples `(0x80, 0xAA, 0xBB)` and `(0xBF, 0xAA, 0xBB)`, which
differ in all six low bits of every top byte. -/
theorem low_six_bits_dropped_witness :
    (∀ a, a < 1536 → a % 3 ≠ 0 →
      (sampleBuffer 0x80 0xAA 0xBB).read a = (sampleBuffer 0xBF 0xAA 0xBB).read a)
    ∧ (∀ s, s < 512 → ((sampleBuffer 0x80 0xAA 0xBB).read (3 * s)).val / 64
        = ((sampleBuffer 0xBF 0xAA 0xBB).read (3 * s)).val / 64)
    ∧ (∀ a, a < 1152 → (compressBuffer (sampleBuffer 0x80 0xAA 0xBB)).1.read a
        = (compressBuffer (sampleBuffer 0xBF 0xAA 0xBB)).1.read a) :=
  have h1 : ∀ a, a < 1536 → a % 3 ≠ 0 →
      (sampleBuffer 0x80 0xAA 0xBB).read a = (sampleBuffer 0xBF 0xAA 0xBB).read a :=
    fun a ha hne => by
      rw [sampleBuffer_read _ _ _ _ ha, sampleBuffer_read _ _ _ _ ha, if_neg hne, if_neg hne]
  have h2 : ∀ s, s < 512 → ((sampleBuffer 0x80 0xAA 0xBB).read (3 * s)).val / 64
      = ((sampleBuffer 0xBF 0xAA 0xBB).read (3 * s)).val / 64 :=
    fun s hs => by
      rw [sampleBuffer_read _ _ _ _ (by omega), sampleBuffer_read _ _ _ _ (by omega),
        if_pos (by omega), if_pos (by omega)]
      decide
  ⟨h1, h2, fun a ha => low_six_bits_dropped _ _ h1 h2 a ha⟩

theorem getField_top_eq_ofNat (x : Byte) :
    getField .lloooooo x = Fin.ofNat (x.val / 64) := by
  have hx := x.isLt
  apply Fin.ext
  show x.val / 2 ^ 6 % 4 = x.val / 64 % 256
  omega

/-- C16. Exact characterisation of `compressBuffer` followed by `expandBuffer`: for
every buffer and every sample `s < 512`, byte `3 * s` becomes
`decryptByte (b[3 * s] >> 6)`, that is `0x00` for `0x00..0x3F`, `0x7F` for
`0x40..0x7F`, `0x80` for `0x80..0xBF` and `0xFF` for `0xC0..0xFF`, and bytes
`3 * s + 1` and `3 * s + 2` keep their values. -/
theorem compress_expand_characterisation (b : Buffer) (s : Nat) (hs : s < 512) :
    (expandBuffer (compressBuffer b).1).1.read (3 * s)
      = decryptByte (Fin.ofNat ((b.read (3 * s)).val / 64))
    ∧ ((b.read (3 * s)).val < 0x40 →
        (expandBuffer (compressBuffer b).1).1.read (3 * s) = 0x00)
    ∧ (0x40 ≤ (b.read (3 * s)).val → (b.read (3 * s)).val < 0x80 →
        (expandBuffer (compressBuffer b).1).1.read (3 * s) = 0x7F)
    ∧ (0x80 ≤ (b.read (3 * s)).val → (b.read (3 * s)).val < 0xC0 →
        (expandBuffer (compressBuffer b).1).1.read (3 * s) = 0x80)
    ∧ (0xC0 ≤ (b.read (3 * s)).val →
        (expandBuffer (compressBuffer b).1).1.read (3 * s) = 0xFF)
    ∧ (expandBuffer (compressBuffer b).1).1.read (3 * s + 1) = b.read (3 * s + 1)
    ∧ (expandBuffer (compressBuffer b).1).1.read (3 * s + 2) = b.read (3 * s + 2) := by
  rw [compress_expand_apply b (3 * s) (by omega), compress_expand_apply b (3 * s + 1) (by omega),
    compress_expand_apply b (3 * s + 2) (by omega), if_pos (by omega), if_neg (by omega),
    if_neg (by omega)]
  obtain ⟨c0, c1, c2, c3⟩ := decryptByte_topBits_cases (b.read (3 * s))
  exact ⟨by rw [getField_top_eq_ofNat], c0, c1, c2, c3, rfl, rfl⟩

/-- C16 on sample 100 of a buffer whose samples are `(0xC5, 0x12, 0x34)`. -/
theorem compress_expand_characterisation_witness :
    100 < 512 ∧
    (expandBuffer (compressBuffer (sampleBuffer 0xC5 0x12 0x34)).1).1.read (3 * 100)
      = decryptByte (Fin.ofNat (((sampleBuffer 0xC5 0x12 0x34).read (3 * 100)).val / 64)) :=
  ⟨by decide, (compress_expand_characterisation (sampleBuffer 0xC5 0x12 0x34) 100 (by decide)).1⟩

/-- C17. Reverse round trip: for every buffer, `expandBuffer` followed by
`compressBuffer` leaves every one of the first 1152 bytes as it was. -/
theorem expand_compress_roundtrip (b : Buffer) (a : Nat) (ha : a < 1152) :
    (compressBuffer (expandBuffer b).1).1.read a = b.read a :=
  expand_compress_apply b a ha

/-- C17 on byte 1151 of a buffer that is not the output of a compression. -/
theorem expand_compress_roundtrip_witness :
    1151 < 1152 ∧
    (compressBuffer (expandBuffer (sampleBuffer 0x41 0x12 0x34)).1).1.read 1151
      = (sampleBuffer 0x41 0x12 0x34).read 1151 :=
  ⟨by decide, expand_compress_roundtrip (sampleBuffer 0x41 0x12 0x34) 1151 (by decide)⟩

/-- C18. Expanded output is canonical: for every buffer and every sample `s < 512`,
after `expandBuffer` the top byte at offset `3 * s` is one of `0x00, 0x7F, 0x80, 0xFF`. -/
theorem expandBuffer_top_sentinel (b : Buffer) (s : Nat) (hs : s < 512) :
    isSentinel ((expandBuffer b).1.read (3 * s)) := by
  rw [expandBuffer_apply, if_pos (by omega)]
  have h : 3 * s % 12 = 0 ∨ 3 * s % 12 = 3 ∨ 3 * s % 12 = 6 ∨ 3 * s % 12 = 9 := by omega
  rcases h with h | h | h | h <;> rw [h] <;> exact decryptByte_isSentinel _

/-- C18 on sample 511 of a buffer filled with `0x41 0x12 0x34`. -/
theorem expandBuffer_top_sentinel_witness :
    511 < 512 ∧ isSentinel ((expandBuffer (sampleBuffer 0x41 0x12 0x34)).1.read (3 * 511)) :=
  ⟨by decide, expandBuffer_top_sentinel (sampleBuffer 0x41 0x12 0x34) 511 (by decide)⟩

/-- C19. Frame of compression: for every buffer, every byte at an offset in
`1152 .. 1535` has the same value after `compressBuffer` as before. -/
theorem compressBuffer_frame (b : Buffer) (a : Nat) (h1 : 1152 ≤ a) (_h2 : a < DMA_SIZE) :
    (compressBuffer b).1.read a = b.read a := by
  rw [compressBuffer_apply, if_neg (by omega)]

/-- C19 on byte 1152 of the buffer of `main`. -/
theorem compressBuffer_frame_witness :
    1152 ≤ 1152 ∧ 1152 < DMA_SIZE
      ∧ (compressBuffer originalBuffer).1.read 1152 = originalBuffer.read 1152 :=
  ⟨by decide, by decide, compressBuffer_frame originalBuffer 1152 (by decide) (by decide)⟩

/-- C20. Bit pattern of `decryptByte`: for every code `c` in `0..3`, the two upper bits
of `decryptByte c` are `c & 0x3`, each of its six lower bits is `c & 0x1`, and the two
top bits of the decoded byte give back the code. -/
theorem decryptByte_bit_pattern (c : Byte) (hc : c.val < 4) :
    (decryptByte c).val / 64 = c.val % 4
    ∧ (∀ i, i < 6 → (decryptByte c).val / 2 ^ i % 2 = c.val % 2)
    ∧ getField .lloooooo (decryptByte c) = c := by
  have hv : c.val = 0 ∨ c.val = 1 ∨ c.val = 2 ∨ c.val = 3 := by omega
  rcases hv with h0 | h0 | h0 | h0
  · have e : c = 0 := Fin.ext h0
    subst e; decide
  · have e : c = 1 := Fin.ext h0
    subst e; decide
  · have e : c = 2 := Fin.ext h0
    subst e; decide
  · have e : c = 3 := Fin.ext h0
    subst e; decide

/-- C20 on the code `0b01`, decoded to `0x7F`. -/
theorem decryptByte_bit_pattern_witness :
    (1 : Byte).val < 4 ∧
    ((decryptByte 1).val / 64 = (1 : Byte).val % 4
      ∧ (∀ i, i < 6 → (decryptByte 1).val / 2 ^ i % 2 = (1 : Byte).val % 2)
      ∧ getField .lloooooo (decryptByte 1) = 1) :=
  ⟨by decide, decryptByte_bit_pattern 1 (by decide)⟩

end Compressor
